import Mathlib

/-!
Verification of the sybil-attack-detection analysis engine.

This file gives a shallow embedding, in Lean 4, of the repository's
analysis engine (`analyzeLogs` in `lib/analyze.ts`), the log validator
(`lib/validate.ts`) and the worker message protocol (the web-worker
`self.onmessage` handler), and proves or refutes the frozen claims
about them.

Modelling conventions:
* JavaScript numbers used for scores/ratios are modelled as `ℚ`
  (exact rational arithmetic); millisecond timestamps as `Int`;
  counts as `Nat`.
* `new Date(s).getTime()` together with the `Number.isFinite` test is
  modelled by an abstract parse function `parseDate : String → Option Int`
  (`none` = NaN / invalid date).  `Date.now()` is an abstract `nowMs`.
  An ISO rendition of a bucket start (`new Date(bin).toISOString()`)
  is modelled by the bucket-start integer itself (`toISOString` is
  injective on valid dates); calling it on an invalid date throws a
  `RangeError: Invalid time value`, modelled as `Except.error`.
* The external collaborator modules `./profile` and `./scam`
  (declared out of scope by the specification, §6) are abstracted as a
  record of opaque total functions `Collaborators`.
* JS `Map`/`Set`/object insertion-order iteration is modelled by
  first-occurrence deduplication of lists (`dedupKeepFirst`).
-/

/-- First-occurrence deduplication worker: skip elements already seen. -/
def dedupFirstAux {α : Type} [DecidableEq α] (seen : List α) : List α → List α
  | [] => []
  | a :: l => if a ∈ seen then dedupFirstAux seen l else a :: dedupFirstAux (a :: seen) l

/-- Keep the first occurrence of every element (JS `Set` / object-key
insertion order). -/
def dedupKeepFirst {α : Type} [DecidableEq α] (l : List α) : List α :=
  dedupFirstAux [] l

theorem mem_dedupFirstAux {α : Type} [DecidableEq α] (l : List α) (seen : List α) (a : α) :
    a ∈ dedupFirstAux seen l ↔ a ∈ l ∧ a ∉ seen := by
  induction l generalizing seen with
  | nil => simp [dedupFirstAux]
  | cons b l ih =>
    by_cases hb : b ∈ seen
    · simp only [dedupFirstAux, if_pos hb]
      rw [ih seen]
      constructor
      · rintro ⟨h1, h2⟩; exact ⟨List.mem_cons_of_mem _ h1, h2⟩
      · rintro ⟨h1, h2⟩
        rcases List.mem_cons.mp h1 with rfl | h1
        · exact absurd hb h2
        · exact ⟨h1, h2⟩
    · simp only [dedupFirstAux, if_neg hb]
      constructor
      · intro h
        rcases List.mem_cons.mp h with rfl | h
        · exact ⟨List.mem_cons_self _ _, hb⟩
        · obtain ⟨h1, h2⟩ := (ih (b :: seen)).mp h
          exact ⟨List.mem_cons_of_mem _ h1, fun hs => h2 (List.mem_cons_of_mem _ hs)⟩
      · rintro ⟨h1, h2⟩
        rcases List.mem_cons.mp h1 with rfl | h1
        · exact List.mem_cons_self _ _
        · by_cases hab : a = b
          · exact hab ▸ List.mem_cons_self _ _
          · refine List.mem_cons_of_mem _ ((ih (b :: seen)).mpr ⟨h1, ?_⟩)
            intro hs
            rcases List.mem_cons.mp hs with h' | h'
            · exact hab h'
            · exact h2 h'

theorem mem_dedupKeepFirst {α : Type} [DecidableEq α] (l : List α) (a : α) :
    a ∈ dedupKeepFirst l ↔ a ∈ l := by
  simp [dedupKeepFirst, mem_dedupFirstAux]

theorem nodup_dedupFirstAux {α : Type} [DecidableEq α] (l : List α) (seen : List α) :
    (dedupFirstAux seen l).Nodup := by
  induction l generalizing seen with
  | nil => simp [dedupFirstAux]
  | cons b l ih =>
    by_cases hb : b ∈ seen
    · simpa [dedupFirstAux, if_pos hb] using ih seen
    · simp only [dedupFirstAux, if_neg hb]
      refine List.nodup_cons.mpr ⟨?_, ?_⟩
      · intro hmem
        have := (mem_dedupFirstAux _ _ _).mp hmem
        exact this.2 (List.mem_cons_self _ _)
      · exact ih (b :: seen)

theorem nodup_dedupKeepFirst {α : Type} [DecidableEq α] (l : List α) :
    (dedupKeepFirst l).Nodup :=
  nodup_dedupFirstAux l []

/-! ## Data model (`lib/analyze.ts` types) -/

/-- `LogEntry` from `lib/analyze.ts`. -/
structure LogEntry where
  timestamp : String
  actor : String
  target : String
  action : String
  platform : String
  bio : Option String := none
  links : Option (List String) := none
  followerCount : Option Int := none
  followingCount : Option Int := none
  amount : Option ℚ := none
  txHash : Option String := none
  blockNumber : Option Int := none
  meta : Option String := none
  targetType : Option String := none
  actorCreatedAt : Option String := none
  verified : Option Bool := none
  location : Option String := none
  deriving Repr, DecidableEq, Inhabited

/-- `AnalysisSettings` from `lib/analyze.ts`. -/
structure AnalysisSettings where
  threshold : ℚ
  minClusterSize : Nat
  timeBinMinutes : Nat
  waveMinCount : Nat
  waveMinActors : Nat
  positiveActions : List String
  churnActions : List String
  deriving Repr, DecidableEq

/-- `DetailedCluster` from `lib/analyze.ts`. -/
structure DetailedCluster where
  clusterId : Nat
  members : List String
  density : ℚ
  conductance : ℚ
  externalEdges : Nat
  deriving Repr, DecidableEq, Inhabited

/-- `WaveResult` from `lib/analyze.ts`; the ISO window strings are
modelled by their millisecond instants. -/
structure WaveResult where
  windowStart : Int
  windowEnd : Int
  action : String
  target : String
  actors : List String
  zScore : ℚ
  deriving Repr, DecidableEq, Inhabited

/-- `ActorScorecard` from `lib/analyze.ts`. -/
structure ActorScorecard where
  actor : String
  sybilScore : ℚ
  churnScore : ℚ
  coordinationScore : ℚ
  noveltyScore : ℚ
  clusterIsolationScore : ℚ
  lowDiversityScore : ℚ
  profileAnomalyScore : ℚ
  links : List String
  suspiciousLinks : List String
  sharedLinks : List String
  linkDiversity : ℚ
  reciprocalRate : ℚ
  burstRate : ℚ
  newAccountScore : ℚ
  bioSimilarityScore : ℚ
  handlePatternScore : ℚ
  phishingLinkScore : ℚ
  reasons : List String
  deriving Repr, DecidableEq, Inhabited

/-- A cytoscape `ElementDefinition`: either a node or an `interaction`
edge. -/
inductive Element where
  | node (id : String)
  | edge (source target : String)
  deriving Repr, DecidableEq

/-- `AnalysisResult` from `lib/analyze.ts`. -/
structure AnalysisResult where
  elements : List Element
  clusters : List DetailedCluster
  waves : List WaveResult
  scorecards : List ActorScorecard
  deriving Repr, DecidableEq, Inhabited

/-- The external collaborator functions imported from `./profile` and
`./scam` (out of scope per the spec), plus the host-runtime primitives
(`Date` parsing, `Date.now()`, `Number.prototype.toFixed`). -/
structure Collaborators where
  normalizeLinks : List String → List String
  extractLinks : String → List String
  computeSharedLinksByActor : List (String × List String) → String → Option (List String)
  isSuspiciousDomain : String → Bool
  linkDiversityScore : List String → ℚ
  updateProfileAnomalyScore : String → List String → Option Int → Option Int → ℚ
  handlePatternScore : List String → String → Option ℚ
  isLikelyPhishingUrl : String → Bool
  parseDate : String → Option Int
  nowMs : Int
  toFixed2 : ℚ → String
  numToString : ℚ → String

/-! ## `lib/validate.ts` -/

/-- JS `String.prototype.trim`: strip leading and trailing whitespace. -/
def jsTrim (s : String) : String :=
  String.mk (((s.data.dropWhile Char.isWhitespace).reverse.dropWhile
    Char.isWhitespace).reverse)

/-- `ValidationIssue` from `lib/validate.ts` (`level` is `true` for
`error`, `false` for `warn`). -/
structure ValidationIssue where
  isError : Bool
  message : String
  deriving Repr, DecidableEq

/-- The `stats` record of a `ValidationReport`. -/
structure ValidationStats where
  rows : Nat
  validRows : Nat
  droppedRows : Nat
  missingRequired : Nat
  invalidTimestamps : Nat
  emptyActors : Nat
  emptyTargets : Nat
  emptyActions : Nat
  emptyPlatforms : Nat
  deriving Repr, DecidableEq

/-- `ValidationReport` from `lib/validate.ts`. -/
structure ValidationReport where
  ok : Bool
  issues : List ValidationIssue
  stats : ValidationStats
  deriving Repr, DecidableEq

/-- Whether a sanitized row is kept by `validateLogs`/`sanitizeLogs`:
all five required fields non-empty after trimming and the timestamp
parses to a finite millisecond value. -/
def rowIsValid (C : Collaborators) (row : LogEntry) : Bool :=
  let ts := (jsTrim row.timestamp)
  let actor := (jsTrim row.actor)
  let target := (jsTrim row.target)
  let action := (jsTrim row.action)
  let platform := (jsTrim row.platform)
  ts ≠ "" && actor ≠ "" && target ≠ "" && action ≠ "" && platform ≠ "" &&
    (C.parseDate ts).isSome

/-- `validateLogs` from `lib/validate.ts`. -/
def validateLogs (C : Collaborators) (logs : List LogEntry) : ValidationReport :=
  let missingRequired := (logs.filter (fun row =>
    (jsTrim row.timestamp) = "" ∨ (jsTrim row.actor) = "" ∨ (jsTrim row.target) = "" ∨
      (jsTrim row.action) = "" ∨ (jsTrim row.platform) = "")).length
  let invalidTimestamps := (logs.filter (fun row =>
    (C.parseDate (jsTrim row.timestamp)).isNone)).length
  let emptyActors := (logs.filter (fun row => (jsTrim row.actor) = "")).length
  let emptyTargets := (logs.filter (fun row => (jsTrim row.target) = "")).length
  let emptyActions := (logs.filter (fun row => (jsTrim row.action) = "")).length
  let emptyPlatforms := (logs.filter (fun row => (jsTrim row.platform) = "")).length
  let validRows := (logs.filter (fun row => rowIsValid C row)).length
  let droppedRows := (logs.filter (fun row => ¬ rowIsValid C row)).length
  let issues : List ValidationIssue :=
    (if logs.length = 0 then [⟨true, "No rows loaded."⟩] else []) ++
    (if 0 < missingRequired then
      [⟨false, "Missing required fields in " ++ toString missingRequired ++
        " row(s). Required: timestamp, platform, action, actor, target."⟩] else []) ++
    (if 0 < invalidTimestamps then
      [⟨false, "Invalid timestamp in " ++ toString invalidTimestamps ++
        " row(s). Use ISO8601 like 2024-01-01T00:00:00Z."⟩] else []) ++
    (if 0 < emptyActions ∧ emptyActions < logs.length then
      [⟨false, "Empty action in " ++ toString emptyActions ++ " row(s)."⟩] else []) ++
    (if 0 < emptyPlatforms ∧ emptyPlatforms < logs.length then
      [⟨false, "Empty platform in " ++ toString emptyPlatforms ++ " row(s)."⟩] else [])
  { ok := 0 < logs.length ∧ 0 < validRows
    issues := issues
    stats :=
      { rows := logs.length
        validRows := validRows
        droppedRows := droppedRows
        missingRequired := missingRequired
        invalidTimestamps := invalidTimestamps
        emptyActors := emptyActors
        emptyTargets := emptyTargets
        emptyActions := emptyActions
        emptyPlatforms := emptyPlatforms } }

/-- The row-cleaning body of the `sanitizeLogs` loop: `none` when the
row is dropped, otherwise the row with trimmed required fields. -/
def cleanRow (C : Collaborators) (row : LogEntry) : Option LogEntry :=
  let timestamp := (jsTrim row.timestamp)
  let actor := (jsTrim row.actor)
  let target := (jsTrim row.target)
  let action := (jsTrim row.action)
  let platform := (jsTrim row.platform)
  if timestamp = "" ∨ actor = "" ∨ target = "" ∨ action = "" ∨ platform = "" then
    none
  else if (C.parseDate timestamp).isNone then none
  else some { row with
    timestamp := timestamp
    actor := actor
    target := target
    action := action
    platform := platform }

/-- `sanitizeLogs` from `lib/validate.ts`: drop rows failing the
required-field / parseable-timestamp checks and trim the kept rows'
required fields. -/
def sanitizeLogs (C : Collaborators) (logs : List LogEntry) :
    List LogEntry × ValidationReport :=
  let valid : List LogEntry := logs.filterMap (cleanRow C)
  let report0 := validateLogs C logs
  let report1 :=
    if 0 < report0.stats.droppedRows then
      { report0 with issues := report0.issues ++
          [⟨false, "Dropped " ++ toString report0.stats.droppedRows ++
            " invalid row(s) before analysis."⟩] }
    else report0
  let report2 :=
    if valid.length = 0 then
      { report1 with
        ok := false
        issues := [⟨true, "No valid rows to analyze after cleaning."⟩] }
    else report1
  (valid, report2)

/-! ## Graph builder (`analyzeLogs` lines 134-165) -/

/-- The node set: every actor and target id, in JS `Set` insertion
order (`nodes.add(log.actor); nodes.add(log.target)` per log). -/
def nodesOf (logs : List LogEntry) : List String :=
  dedupKeepFirst (logs.flatMap (fun l => [l.actor, l.target]))

/-- The directed positive-action edge list: one edge per qualifying
event, in log order (no deduplication). -/
def posEdges (logs : List LogEntry) (s : AnalysisSettings) : List (String × String) :=
  logs.filterMap (fun l =>
    if l.action ∈ s.positiveActions then some (l.actor, l.target) else none)

/-- The undirected adjacency list of a node: for each edge,
`graph[s].push(t); graph[t].push(s)`. -/
def adjacency (edges : List (String × String)) (n : String) : List String :=
  edges.flatMap (fun e =>
    (if e.1 = n then [e.2] else []) ++ (if e.2 = n then [e.1] else []))

/-! ## Cluster detector (`analyzeLogs` lines 167-206) -/

/-- The `for (const neighbor of graph[node])` body: mark unvisited
neighbors visited and push them. -/
def dfsNeighbors (visited stack : List String) : List String → List String × List String
  | [] => (visited, stack)
  | n :: ns =>
    if n ∈ visited then dfsNeighbors visited stack ns
    else dfsNeighbors (n :: visited) (n :: stack) ns

/-- The `while (stack.length > 0)` loop of the iterative DFS, with
explicit fuel (the loop runs at most once per node, so any fuel above
the node count is enough). -/
def dfsLoop (g : String → List String) :
    Nat → List String → List String → List String → List String × List String
  | 0, visited, _, comp => (visited, comp)
  | _ + 1, visited, [], comp => (visited, comp)
  | fuel + 1, visited, node :: rest, comp =>
    let p := dfsNeighbors visited rest (g node)
    dfsLoop g fuel p.1 p.2 (comp ++ [node])

/-- `dfs(start, component)` on a fresh visited set: the member list of
the connected component of `start`. -/
def componentOf (g : String → List String) (fuel : Nat) (start : String) : List String :=
  (dfsLoop g fuel [start] [start] []).2

/-- Density/conductance computation for one kept component
(`analyzeLogs` lines 191-205). -/
def mkCluster (g : String → List String) (cid : Nat) (comp : List String) : DetailedCluster :=
  let internal2 : Nat := (comp.map (fun n => ((g n).filter (fun m => m ∈ comp)).length)).sum
  let internalEdges : ℚ := (internal2 : ℚ) / 2
  let possibleEdges : ℚ := ((comp.length : ℚ) * ((comp.length : ℚ) - 1)) / 2
  let density : ℚ := if 0 < possibleEdges then internalEdges / possibleEdges else 0
  let externalEdges : Nat :=
    (comp.map (fun n => ((g n).filter (fun m => m ∉ comp)).length)).sum
  let totalEdges : ℚ := internalEdges + (externalEdges : ℚ)
  let conductance : ℚ := if 0 < totalEdges then (externalEdges : ℚ) / totalEdges else 0
  { clusterId := cid
    members := comp
    density := density
    conductance := conductance
    externalEdges := externalEdges }

/-- The `for (const node of nodes)` component-discovery loop. -/
def clustersGo (g : String → List String) (fuel : Nat) (minSize : Nat) :
    List String → List String → Nat → List DetailedCluster
  | [], _, _ => []
  | n :: ns, visited, cid =>
    if n ∈ visited then clustersGo g fuel minSize ns visited cid
    else
      let p := dfsLoop g fuel (n :: visited) [n] []
      if p.2.length < minSize then clustersGo g fuel minSize ns p.1 cid
      else mkCluster g cid p.2 :: clustersGo g fuel minSize ns p.1 (cid + 1)

/-- All clusters of the undirected positive-action graph. -/
def findClusters (nodes : List String) (g : String → List String) (minSize : Nat) :
    List DetailedCluster :=
  clustersGo g (nodes.length + 1) minSize nodes [] 0

/-! ## Temporal wave detector (`analyzeLogs` lines 209-239) -/

/-- `Math.max(1, settings.timeBinMinutes) * 60 * 1000`. -/
def binSizeMs (s : AnalysisSettings) : Int := ((max 1 s.timeBinMinutes : Nat) : Int) * 60000

/-- `Math.floor(date.getTime() / binSizeMs) * binSizeMs`. -/
def bucketStart (binSize t : Int) : Int := t.fdiv binSize * binSize

/-- Bucket key of a log entry (`none` when the timestamp is unparsable). -/
def logBucket (C : Collaborators) (binSize : Int) (l : LogEntry) : Option Int :=
  (C.parseDate l.timestamp).map (bucketStart binSize)

/-- The (bucket, action, target) key of every log, in log order.  An
unparsable timestamp makes `new Date(NaN).toISOString()` throw
`RangeError: Invalid time value`, modelled as an error. -/
def logKeys (C : Collaborators) (binSize : Int) :
    List LogEntry → Except String (List (Int × String × String))
  | [] => .ok []
  | l :: ls =>
    match C.parseDate l.timestamp with
    | none => .error "Invalid time value"
    | some t =>
      match logKeys C binSize ls with
      | .error e => .error e
      | .ok ks => .ok ((bucketStart binSize t, l.action, l.target) :: ks)

/-- The events grouped under one (bucket, action, target) key. -/
def waveGroup (C : Collaborators) (binSize : Int) (logs : List LogEntry)
    (b : Int) (a t : String) : List LogEntry :=
  logs.filter (fun l => logBucket C binSize l = some b ∧ l.action = a ∧ l.target = t)

/-- The distinct actors of one group, in insertion order (JS `Set`). -/
def waveGroupActors (C : Collaborators) (binSize : Int) (logs : List LogEntry)
    (b : Int) (a t : String) : List String :=
  dedupKeepFirst ((waveGroup C binSize logs b a t).map (fun l => l.actor))

/-- The (bucket, action, target) triples in the nested iteration order
of `Object.entries(timeBins)` (bucket, then action, then target, each
by first occurrence). -/
def enumTriples (ks : List (Int × String × String)) : List (Int × String × String) :=
  (dedupKeepFirst (ks.map (fun k => k.1))).flatMap (fun b =>
    (dedupKeepFirst ((ks.filter (fun k => k.1 = b)).map (fun k => k.2.1))).flatMap (fun a =>
      (dedupKeepFirst ((ks.filter (fun k => k.1 = b ∧ k.2.1 = a)).map
          (fun k => k.2.2))).map (fun t => (b, a, t))))

/-- The wave threshold test of `analyzeLogs` line 227. -/
def waveTest (C : Collaborators) (s : AnalysisSettings) (binSize : Int)
    (logs : List LogEntry) (k : Int × String × String) : Prop :=
  s.waveMinCount ≤ (waveGroup C binSize logs k.1 k.2.1 k.2.2).length ∧
    s.waveMinActors ≤ (waveGroupActors C binSize logs k.1 k.2.1 k.2.2).length

instance (C : Collaborators) (s : AnalysisSettings) (binSize : Int)
    (logs : List LogEntry) (k : Int × String × String) :
    Decidable (waveTest C s binSize logs k) := by
  unfold waveTest; infer_instance

/-- The emitted wave list (`analyzeLogs` lines 223-239). -/
def wavesOf (C : Collaborators) (s : AnalysisSettings) (binSize : Int)
    (logs : List LogEntry) (triples : List (Int × String × String)) : List WaveResult :=
  triples.filterMap (fun k =>
    if waveTest C s binSize logs k then
      some
        { windowStart := k.1
          windowEnd := k.1 + binSize
          action := k.2.1
          target := k.2.2
          actors := waveGroupActors C binSize logs k.1 k.2.1 k.2.2
          zScore := ((waveGroup C binSize logs k.1 k.2.1 k.2.2).length : ℚ) /
            ((max 1 s.waveMinCount : Nat) : ℚ) }
    else none)

/-- `burstActions`: the number of distinct wave keys an actor appears
in (`analyzeLogs` lines 300-317). -/
def burstCount (C : Collaborators) (s : AnalysisSettings) (binSize : Int)
    (logs : List LogEntry) (triples : List (Int × String × String)) (n : String) : Nat :=
  ((triples.filter (fun k => waveTest C s binSize logs k)).filter
    (fun k => n ∈ waveGroupActors C binSize logs k.1 k.2.1 k.2.2)).length

/-! ## Profile aggregation (`analyzeLogs` lines 100-131) -/

/-- JS truthiness of an optional string field (absent or empty =
falsy). -/
def strTruthy : Option String → Bool
  | none => false
  | some s => s ≠ ""

/-- The per-actor profile record accumulated over the log. -/
structure ActorProfile where
  bio : Option String := none
  links : Option (List String) := none
  followerCount : Option Int := none
  followingCount : Option Int := none
  actorCreatedAt : Option String := none
  verified : Option Bool := none
  location : Option String := none

/-- One step of the profile-collection loop (`analyzeLogs` lines
105-114). -/
def updateProfile (C : Collaborators) (p : ActorProfile) (l : LogEntry) : ActorProfile :=
  { bio := if strTruthy l.bio then l.bio else p.bio
    links := match l.links with
      | some ls => some (C.normalizeLinks ls)
      | none => p.links
    followerCount := if l.followerCount.isSome then l.followerCount else p.followerCount
    followingCount := if l.followingCount.isSome then l.followingCount else p.followingCount
    actorCreatedAt := if strTruthy l.actorCreatedAt then l.actorCreatedAt else p.actorCreatedAt
    verified := if l.verified.isSome then l.verified else p.verified
    location := if strTruthy l.location then l.location else p.location }

/-- `actorProfiles[n]` after the whole log has been scanned. -/
def profileOf (C : Collaborators) (logs : List LogEntry) (n : String) : ActorProfile :=
  (logs.filter (fun l => l.actor = n)).foldl (updateProfile C) {}

/-- The distinct actors in log order (`Object.keys(actorProfiles)`). -/
def actorsInOrder (logs : List LogEntry) : List String :=
  dedupKeepFirst (logs.map (fun l => l.actor))

/-- `linksByActor.get(n)`: profile links plus links extracted from the
bio, normalized (`analyzeLogs` lines 116-121, with the line-333
fallback, which coincides for actors absent from the map). -/
def actorLinks (C : Collaborators) (logs : List LogEntry) (n : String) : List String :=
  let p := profileOf C logs n
  let fromProfile := p.links.getD []
  let fromBio := if strTruthy p.bio then C.extractLinks (p.bio.getD "") else []
  C.normalizeLinks (fromProfile ++ fromBio)

/-- `sharedLinksByActor.get(n)`. -/
def sharedLinksOf (C : Collaborators) (logs : List LogEntry) (n : String) :
    Option (List String) :=
  C.computeSharedLinksByActor
    ((actorsInOrder logs).map (fun a => (a, actorLinks C logs a))) n

/-- Whitespace tokenizer: the maximal non-whitespace runs of a
character list, used to model `replace(/\s+/g, ' ').trim()`. -/
def wsTokensAux (cur : List Char) : List Char → List (List Char)
  | [] => if cur = [] then [] else [cur.reverse]
  | c :: cs =>
    if c.isWhitespace then
      if cur = [] then wsTokensAux [] cs else cur.reverse :: wsTokensAux [] cs
    else wsTokensAux (c :: cur) cs

/-- `bio.toLowerCase().replace(/\s+/g, ' ').trim()`. -/
def normalizeBio (s : String) : String :=
  String.mk (List.intercalate [' '] (wsTokensAux [] (s.data.map Char.toLower)))

/-- `normalizedBioByActor.get(n)` (`analyzeLogs` lines 124-131). -/
def normalizedBioOf (C : Collaborators) (logs : List LogEntry) (n : String) : Option String :=
  let b := normalizeBio ((profileOf C logs n).bio.getD "")
  if b = "" then none else some b

/-- `bioCount.get(b)`: how many distinct actors have normalized bio `b`. -/
def bioCountOf (C : Collaborators) (logs : List LogEntry) (b : String) : Nat :=
  ((actorsInOrder logs).filter (fun a => normalizedBioOf C logs a = some b)).length

/-! ## Actor statistics and scoring (`analyzeLogs` lines 242-388) -/

/-- `positiveOut.get(n)`: distinct targets of `n`'s positive actions. -/
def posOutSet (logs : List LogEntry) (s : AnalysisSettings) (n : String) : List String :=
  dedupKeepFirst ((logs.filter (fun l => l.action ∈ s.positiveActions ∧ l.actor = n)).map
    (fun l => l.target))

/-- `positiveIn.get(n)`: distinct sources of positive actions onto `n`. -/
def posInSet (logs : List LogEntry) (s : AnalysisSettings) (n : String) : List String :=
  dedupKeepFirst ((logs.filter (fun l => l.action ∈ s.positiveActions ∧ l.target = n)).map
    (fun l => l.actor))

/-- Earliest parseable timestamp of `n`'s events (`analyzeLogs` lines
279-280). -/
def firstSeenOf (C : Collaborators) (logs : List LogEntry) (n : String) : Option Int :=
  (logs.filter (fun l => l.actor = n)).foldl
    (fun acc l =>
      match C.parseDate l.timestamp with
      | none => acc
      | some t => some (match acc with | none => t | some m => min m t))
    none

/-- The owning-cluster size of a node (`analyzeLogs` lines 283-287): 0
when in no kept cluster. -/
def clusterSizeOf (clusters : List DetailedCluster) (n : String) : Nat :=
  clusters.foldl (fun acc c => if n ∈ c.members then c.members.length else acc) 0

/-- The scorecard of one node (`analyzeLogs` lines 321-388). -/
def scorecardOf (C : Collaborators) (logs : List LogEntry) (s : AnalysisSettings)
    (nodes : List String) (clusters : List DetailedCluster) (binSize : Int)
    (triples : List (Int × String × String)) (datasetStartMs : Int)
    (n : String) : ActorScorecard :=
  let g := adjacency (posEdges logs s)
  let myLogs := logs.filter (fun l => l.actor = n)
  let totalActions := myLogs.length
  let churnCount := (myLogs.filter (fun l => l.action ∈ s.churnActions)).length
  let uniqueTargets := dedupKeepFirst (myLogs.map (fun l => l.target))
  let connections := (g n).length
  let clusterSize := clusterSizeOf clusters n
  let pOut := posOutSet logs s n
  let mutualPositive := (pOut.filter (fun t => n ∈ posOutSet logs s t)).length
  let burst := burstCount C s binSize logs triples n
  let coordinationScore : ℚ :=
    if 0 < totalActions then min ((burst : ℚ) / (totalActions : ℚ)) 1 else 0
  let churnScore : ℚ := churnCount
  let clusterIsolationScore : ℚ :=
    if 0 < clusterSize then 1 - (connections : ℚ) / (clusterSize : ℚ) else 0
  let profile := profileOf C logs n
  let createdMs : Option Int :=
    if strTruthy profile.actorCreatedAt then C.parseDate (profile.actorCreatedAt.getD "")
    else none
  let firstSeen : Int := (firstSeenOf C logs n).getD datasetStartMs
  let ageDays : Option ℚ :=
    match createdMs with
    | some m => if m ≠ 0 then some ((((firstSeen - m : Int)) : ℚ) / 86400000) else none
    | none => none
  let newAccountScore : ℚ :=
    match ageDays with
    | some d => if 0 ≤ d ∧ d < 7 then 1 else 0
    | none => 0
  let lowDiversityScore : ℚ :=
    if 0 < totalActions then 1 - (uniqueTargets.length : ℚ) / (totalActions : ℚ) else 0
  let links := actorLinks C logs n
  let suspiciousLinks := links.filter (fun link => C.isSuspiciousDomain link)
  let phishingLinks := links.filter (fun link => C.isLikelyPhishingUrl link)
  let sharedLinks := (sharedLinksOf C logs n).getD []
  let linkDiversity := C.linkDiversityScore links
  let reciprocalRate : ℚ :=
    if 0 < pOut.length then (mutualPositive : ℚ) / (pOut.length : ℚ) else 0
  let burstRate : ℚ :=
    if 0 < totalActions then min ((burst : ℚ) / (totalActions : ℚ)) 1 else 0
  let bioSimilarityScore : ℚ :=
    match normalizedBioOf C logs n with
    | some b => min ((((max 1 (bioCountOf C logs b) : Nat) : ℚ) - 1) / 5) 1
    | none => 0
  let handlePatternScore : ℚ := (C.handlePatternScore nodes n).getD 0
  let phishingLinkScore : ℚ :=
    if 0 < phishingLinks.length then min ((phishingLinks.length : ℚ) / 2) 1 else 0
  let profileAnomalyScore : ℚ :=
    C.updateProfileAnomalyScore n links profile.followerCount profile.followingCount
  let sybilScore : ℚ :=
    0.30 * coordinationScore +
    0.20 * min (churnScore / 10) 1 +
    0.15 * clusterIsolationScore +
    0.10 * newAccountScore +
    0.10 * lowDiversityScore +
    0.15 * profileAnomalyScore
  let reasons : List String :=
    (if s.threshold < sybilScore then
      ["Score " ++ C.toFixed2 sybilScore ++ " ≥ threshold " ++ C.toFixed2 s.threshold]
     else []) ++
    (if (1/2 : ℚ) ≤ coordinationScore then
      ["High coordination (" ++ C.toFixed2 coordinationScore ++ ")"] else []) ++
    (if (5 : ℚ) ≤ churnScore then
      ["High churn (" ++ C.numToString churnScore ++ ")"] else []) ++
    (if (1/2 : ℚ) ≤ clusterIsolationScore ∧ s.minClusterSize ≤ clusterSize then
      ["Cluster isolation (" ++ C.toFixed2 clusterIsolationScore ++ ") in cluster size " ++
        toString clusterSize] else []) ++
    (if (7/10 : ℚ) ≤ lowDiversityScore then
      ["Low target diversity (" ++ C.toFixed2 lowDiversityScore ++ ")"] else []) ++
    (if 0 < suspiciousLinks.length then
      ["Suspicious link domains (" ++ toString suspiciousLinks.length ++ ")"] else []) ++
    (if 0 < phishingLinks.length then
      ["Phishing-like URLs (" ++ toString phishingLinks.length ++ ")"] else []) ++
    (if 0 < sharedLinks.length then
      ["Shared links with others (" ++ toString sharedLinks.length ++ ")"] else []) ++
    (if (2/5 : ℚ) ≤ bioSimilarityScore then
      ["Repeated bio text (" ++ C.toFixed2 bioSimilarityScore ++ ")"] else []) ++
    (if (2/5 : ℚ) ≤ handlePatternScore then
      ["Handle pattern similarity (" ++ C.toFixed2 handlePatternScore ++ ")"] else []) ++
    (if newAccountScore = 1 then ["New account (<7 days)"] else [])
  { actor := n
    sybilScore := sybilScore
    churnScore := churnScore
    coordinationScore := coordinationScore
    noveltyScore := newAccountScore
    clusterIsolationScore := clusterIsolationScore
    lowDiversityScore := lowDiversityScore
    profileAnomalyScore := profileAnomalyScore
    links := links
    suspiciousLinks := suspiciousLinks
    sharedLinks := sharedLinks
    linkDiversity := linkDiversity
    reciprocalRate := reciprocalRate
    burstRate := burstRate
    newAccountScore := newAccountScore
    bioSimilarityScore := bioSimilarityScore
    handlePatternScore := handlePatternScore
    phishingLinkScore := phishingLinkScore
    reasons := reasons }

/-- `analyzeLogs` from `lib/analyze.ts`.  The result is `Except`
because the time-bucketing stage calls `new Date(bin).toISOString()`,
which throws on an unparsable timestamp. -/
def analyzeLogs (C : Collaborators) (logs : List LogEntry) (s : AnalysisSettings) :
    Except String AnalysisResult :=
  if logs.isEmpty then .ok ⟨[], [], [], []⟩ else
  let allTimes := logs.filterMap (fun l => C.parseDate l.timestamp)
  let datasetStartMs : Int :=
    match allTimes with
    | [] => C.nowMs
    | t :: ts => ts.foldl min t
  let nodes := nodesOf logs
  let edges := posEdges logs s
  let elements := nodes.map Element.node ++ edges.map (fun e => Element.edge e.1 e.2)
  let g := adjacency edges
  let clusters := findClusters nodes g s.minClusterSize
  let binSize := binSizeMs s
  match logKeys C binSize logs with
  | .error e => .error e
  | .ok ks =>
    let triples := enumTriples ks
    let waves := wavesOf C s binSize logs triples
    let scorecards :=
      nodes.map (scorecardOf C logs s nodes clusters binSize triples datasetStartMs)
    .ok ⟨elements, clusters, waves, scorecards⟩

/-! ## Worker protocol (`app/workers` `self.onmessage`) -/

/-- The kind of an outward worker notification. -/
inductive NotifKind where
  | progress (stage : String) (pct : Nat)
  | result
  | error (msg : String)
  deriving Repr, DecidableEq

/-- An outward `postMessage` payload: the request id it names plus its
kind. -/
structure OutMsg where
  requestId : String
  kind : NotifKind
  deriving Repr, DecidableEq

/-- The observable events of the worker handler, at the granularity at
which `activeRequestId` is read or written:
* `analyzeStart r` — the `analyze` branch setting `activeRequestId = r`;
* `cancel r` — the `cancel` branch (`if (activeRequestId === r) activeRequestId = null`);
* `notify r k` — a guarded emission (`if (activeRequestId !== r) return; postMessage(...)`),
  covering the progress callback and the final result/error messages. -/
inductive WorkerEvent where
  | analyzeStart (requestId : String)
  | cancel (requestId : String)
  | notify (requestId : String) (kind : NotifKind)
  deriving Repr, DecidableEq

/-- One step of the worker: next `activeRequestId` plus emitted
messages. -/
def workerStep (st : Option String) : WorkerEvent → Option String × List OutMsg
  | .analyzeStart r => (some r, [])
  | .cancel r => (if st = some r then none else st, [])
  | .notify r k => (st, if st = some r then [⟨r, k⟩] else [])

/-- All messages emitted over a sequence of worker events. -/
def workerRun (st : Option String) : List WorkerEvent → List OutMsg
  | [] => []
  | e :: es => (workerStep st e).2 ++ workerRun (workerStep st e).1 es

/-- The `activeRequestId` cell after a sequence of worker events. -/
def workerStateAfter (st : Option String) (evs : List WorkerEvent) : Option String :=
  evs.foldl (fun s e => (workerStep s e).1) st

/-! ## Concrete collaborator instance used for witnesses

The parse function reads a decimal-digit timestamp string (anything
else is an invalid date); every profile/scam collaborator is a
constant function. -/

/-- The numeric value of a decimal digit character. -/
def digitVal (c : Char) : Option Nat :=
  if c.isDigit then some (c.toNat - '0'.toNat) else none

def parseDigitsAux : List Char → Nat → Option Nat
  | [], acc => some acc
  | c :: cs, acc =>
    match digitVal c with
    | none => none
    | some d => parseDigitsAux cs (acc * 10 + d)

/-- A concrete date parser: a non-empty string of decimal digits is
the millisecond instant it spells; anything else is an invalid date. -/
def trivParse (s : String) : Option Int :=
  match s.data with
  | [] => none
  | cs => (parseDigitsAux cs 0).map Int.ofNat

def trivC : Collaborators :=
  { normalizeLinks := fun ls => ls
    extractLinks := fun _ => []
    computeSharedLinksByActor := fun _ _ => none
    isSuspiciousDomain := fun _ => false
    linkDiversityScore := fun _ => 0
    updateProfileAnomalyScore := fun _ _ _ _ => 0
    handlePatternScore := fun _ _ => none
    isLikelyPhishingUrl := fun _ => false
    parseDate := trivParse
    nowMs := 0
    toFixed2 := fun _ => ""
    numToString := fun _ => "" }

/-- A minimal log entry for concrete inputs. -/
def mkLog (ts actor target action : String) : LogEntry :=
  { timestamp := ts
    actor := actor
    target := target
    action := action
    platform := "x" }

/-- Valid settings (§6) used for concrete inputs. -/
def stdSettings : AnalysisSettings :=
  { threshold := 1/2
    minClusterSize := 2
    timeBinMinutes := 5
    waveMinCount := 3
    waveMinActors := 3
    positiveActions := ["follow"]
    churnActions := ["unfollow"] }

/-! ## C1: behaviour on an unparsable timestamp -/

/-- A log whose single event has an unparsable timestamp. -/
def c1logs : List LogEntry := [mkLog "not-a-date" "a" "b" "follow"]

/-- C1: the claim says `analyzeLogs` tolerates an unparsable timestamp
by excluding the event from time-bucketed aggregates.  The code does
not: the bucketing loop computes `new Date(bin).toISOString()` with
`bin = NaN`, which throws `RangeError: Invalid time value`, so the
whole analysis fails.  At the concrete failing input the run returns
the error. -/
theorem analyzeLogs_throws_on_unparsable_timestamp :
    analyzeLogs trivC c1logs stdSettings = .error "Invalid time value" := by
  rfl

/-! ## C3: adjacency multiplicities -/

/-- Multiplicity law for the clustering adjacency: node `u` occurs in
`v`'s neighbor list once per positive event `v→u` plus once per
positive event `u→v` (so a repeated pair yields repeated entries). -/
theorem adjacency_chunk_count (e : String × String) (u v : String) :
    (((if e.1 = v then [e.2] else []) ++ (if e.2 = v then [e.1] else []))).count u =
      (if e.1 = v ∧ e.2 = u then 1 else 0) + (if e.1 = u ∧ e.2 = v then 1 else 0) := by
  by_cases h1 : e.1 = v <;> by_cases h2 : e.2 = u <;>
    by_cases h3 : e.1 = u <;> by_cases h4 : e.2 = v <;> by_cases huv : u = v <;>
    simp_all [List.count_append, List.count_cons, List.count_nil,
      List.count_singleton, beq_iff_eq]

theorem length_ite_cons {α : Type} (c : Prop) [Decidable c] (x : α) (l : List α) :
    (if c then x :: l else l).length = (if c then 1 else 0) + l.length := by
  split <;> simp [Nat.add_comm]

theorem adjacency_count_eq (edges : List (String × String)) (u v : String) :
    (adjacency edges v).count u =
      (edges.filter (fun e => e.1 = v ∧ e.2 = u)).length +
      (edges.filter (fun e => e.1 = u ∧ e.2 = v)).length := by
  induction edges with
  | nil => rfl
  | cons e es ih =>
    have hstep : adjacency (e :: es) v =
        ((if e.1 = v then [e.2] else []) ++ (if e.2 = v then [e.1] else [])) ++
          adjacency es v := by
      simp [adjacency]
    rw [hstep, List.count_append, adjacency_chunk_count, ih, List.filter_cons,
      List.filter_cons]
    simp only [decide_eq_true_eq, Bool.and_eq_true]
    rw [length_ite_cons, length_ite_cons]
    split_ifs <;> omega

/-- The duplicate-pair log: two identical positive events `a→b`. -/
def c3logs : List LogEntry :=
  [mkLog "0" "a" "b" "follow", mkLog "60000" "a" "b" "follow"]

/-- C3 counterexample: with two positive events between the same pair,
`b` appears twice in `a`'s neighbor list — multiple positive events do
not collapse to a single adjacency entry. -/
theorem adjacency_not_collapsed_counterexample :
    (adjacency (posEdges c3logs stdSettings) "a").count "b" = 2 ∧
      ¬ (adjacency (posEdges c3logs stdSettings) "a").count "b" ≤ 1 := by
  decide

/-! ## C9: worker cancellation -/

/-- After any event, the active id equals `some rid` only if the event
itself started request `rid`. -/
theorem workerStep_fst_ne (st : Option String) (e : WorkerEvent) (rid : String)
    (hst : st ≠ some rid) (he : e ≠ .analyzeStart rid) :
    (workerStep st e).1 ≠ some rid := by
  cases e with
  | analyzeStart r =>
    simp only [workerStep]
    intro h
    exact he (congrArg WorkerEvent.analyzeStart (Option.some.inj h))
  | cancel r =>
    simp only [workerStep]
    split
    · simp
    · exact hst
  | notify r k => simpa [workerStep] using hst

/-- While the active id differs from `rid` and no new `analyze` for
`rid` arrives, no message for `rid` is emitted. -/
theorem workerRun_ne_of_inactive (rid : String) (evs : List WorkerEvent) :
    ∀ st : Option String, st ≠ some rid → (WorkerEvent.analyzeStart rid ∉ evs) →
      ∀ m ∈ workerRun st evs, m.requestId ≠ rid := by
  induction evs with
  | nil => intro st _ _ m hm; simp [workerRun] at hm
  | cons e es ih =>
    intro st hst hevs m hm
    have he : e ≠ .analyzeStart rid := fun h => hevs (h ▸ List.mem_cons_self _ _)
    have hes : WorkerEvent.analyzeStart rid ∉ es :=
      fun h => hevs (List.mem_cons_of_mem _ h)
    simp only [workerRun, List.mem_append] at hm
    rcases hm with hm | hm
    · cases e with
      | analyzeStart r => simp [workerStep] at hm
      | cancel r => simp [workerStep] at hm
      | notify r k =>
        simp only [workerStep] at hm
        split at hm
        · next hcond =>
          simp only [List.mem_singleton] at hm
          subst hm
          intro hr
          exact hst (by rw [hcond]; exact congrArg some hr)
        · simp at hm
    · exact ih (workerStep st e).1 (workerStep_fst_ne st e rid hst he) hes m hm

/-- C9: once a `cancel` for request id `rid` has been processed, and no
later `analyze` message reuses the same id (duplicate ids are out of
scope per §4.6), the cancel itself emits nothing and no later
notification — progress, result or error — carries `rid`. -/
theorem worker_cancel_suppresses_notifications (st : Option String)
    (pre post : List WorkerEvent) (rid : String)
    (hpost : WorkerEvent.analyzeStart rid ∉ post) :
    (workerStep (workerStateAfter st pre) (WorkerEvent.cancel rid)).2 = [] ∧
      ∀ m ∈ workerRun (workerStateAfter st (pre ++ [WorkerEvent.cancel rid])) post,
        m.requestId ≠ rid := by
  constructor
  · rfl
  · have hst : workerStateAfter st (pre ++ [WorkerEvent.cancel rid]) ≠ some rid := by
      have : workerStateAfter st (pre ++ [WorkerEvent.cancel rid]) =
          (workerStep (workerStateAfter st pre) (WorkerEvent.cancel rid)).1 := by
        simp [workerStateAfter, List.foldl_append]
      rw [this]
      simp only [workerStep]
      split
      · simp
      · next h => exact h
    exact workerRun_ne_of_inactive rid post _ hst hpost

/-- C9 witness: a concrete cancelled run — analyze "r1" starts, one
progress notification goes out, the caller cancels "r1", and the
remaining result emission attempt produces nothing for "r1". -/
theorem worker_cancel_suppresses_notifications_witness :
    (workerStep (workerStateAfter none [WorkerEvent.analyzeStart "r1",
        WorkerEvent.notify "r1" (NotifKind.progress "start" 0)])
        (WorkerEvent.cancel "r1")).2 = [] ∧
      ∀ m ∈ workerRun (workerStateAfter none
          ([WorkerEvent.analyzeStart "r1",
            WorkerEvent.notify "r1" (NotifKind.progress "start" 0)] ++
            [WorkerEvent.cancel "r1"]))
          [WorkerEvent.notify "r1" (NotifKind.progress "profiles" 15),
            WorkerEvent.notify "r1" NotifKind.result],
        m.requestId ≠ "r1" :=
  worker_cancel_suppresses_notifications none _ _ "r1" (by decide)

/-! ## C10: sanitizeLogs output invariants -/

/-- C10: every row surviving `sanitizeLogs` has non-empty trimmed
required fields and a parseable timestamp; no malformed row reaches
the engine through this path. -/
theorem sanitizeLogs_rows_valid (C : Collaborators) (logs : List LogEntry) (r : LogEntry)
    (hr : r ∈ (sanitizeLogs C logs).1) :
    r.timestamp ≠ "" ∧ r.actor ≠ "" ∧ r.target ≠ "" ∧ r.action ≠ "" ∧
      r.platform ≠ "" ∧ (C.parseDate r.timestamp).isSome := by
  simp only [sanitizeLogs] at hr
  obtain ⟨row, _, hrow⟩ := List.mem_filterMap.mp hr
  simp only [cleanRow] at hrow
  split at hrow
  · exact absurd hrow (by simp)
  · split at hrow
    · exact absurd hrow (by simp)
    · next hne hsome =>
      obtain rfl := Option.some.inj hrow
      push_neg at hne
      obtain ⟨h1, h2, h3, h4, h5⟩ := hne
      refine ⟨h1, h2, h3, h4, h5, ?_⟩
      simpa [Option.isNone_iff_eq_none, Option.isSome_iff_ne_none] using hsome

/-- Concrete input for the C10 witness. -/
def c10logs : List LogEntry :=
  [mkLog " 10 " " alice " "bob" "follow",
   mkLog "" "carol" "dave" "follow",
   mkLog "nope" "erin" "frank" "follow"]

/-- C10 witness: the surviving sanitized row of `c10logs` satisfies all
the invariants. -/
theorem sanitizeLogs_rows_valid_witness :
    ((sanitizeLogs trivC c10logs).1.headI.timestamp ≠ "" ∧
      (sanitizeLogs trivC c10logs).1.headI.actor ≠ "" ∧
      (sanitizeLogs trivC c10logs).1.headI.target ≠ "" ∧
      (sanitizeLogs trivC c10logs).1.headI.action ≠ "" ∧
      (sanitizeLogs trivC c10logs).1.headI.platform ≠ "" ∧
      (trivC.parseDate ((sanitizeLogs trivC c10logs).1.headI.timestamp)).isSome) :=
  sanitizeLogs_rows_valid trivC c10logs ((sanitizeLogs trivC c10logs).1.headI) (by decide)

/-! ## C4: the composite score formula -/

/-- C4: for every scorecard produced by `analyzeLogs`, the composite
equals the fixed-weight linear combination of the six sub-scores, the
weights sum to 1, the composite is 0 (resp. 1) when every sub-score is
at its minimum (resp. maximum), and it lies in [0,1] whenever every
sub-score does. -/
theorem analyzeLogs_sybilScore_formula (C : Collaborators) (logs : List LogEntry)
    (s : AnalysisSettings) (res : AnalysisResult) (h : analyzeLogs C logs s = .ok res)
    (sc : ActorScorecard) (hsc : sc ∈ res.scorecards) :
    sc.sybilScore =
      0.30 * sc.coordinationScore + 0.20 * min (sc.churnScore / 10) 1 +
      0.15 * sc.clusterIsolationScore + 0.10 * sc.newAccountScore +
      0.10 * sc.lowDiversityScore + 0.15 * sc.profileAnomalyScore ∧
    ((0.30 : ℚ) + 0.20 + 0.15 + 0.10 + 0.10 + 0.15 = 1) ∧
    (sc.coordinationScore = 0 → min (sc.churnScore / 10) 1 = 0 →
      sc.clusterIsolationScore = 0 → sc.newAccountScore = 0 →
      sc.lowDiversityScore = 0 → sc.profileAnomalyScore = 0 → sc.sybilScore = 0) ∧
    (sc.coordinationScore = 1 → min (sc.churnScore / 10) 1 = 1 →
      sc.clusterIsolationScore = 1 → sc.newAccountScore = 1 →
      sc.lowDiversityScore = 1 → sc.profileAnomalyScore = 1 → sc.sybilScore = 1) ∧
    (0 ≤ sc.coordinationScore → sc.coordinationScore ≤ 1 →
      0 ≤ min (sc.churnScore / 10) 1 →
      0 ≤ sc.clusterIsolationScore → sc.clusterIsolationScore ≤ 1 →
      0 ≤ sc.newAccountScore → sc.newAccountScore ≤ 1 →
      0 ≤ sc.lowDiversityScore → sc.lowDiversityScore ≤ 1 →
      0 ≤ sc.profileAnomalyScore → sc.profileAnomalyScore ≤ 1 →
      0 ≤ sc.sybilScore ∧ sc.sybilScore ≤ 1) := by
  have hform : sc.sybilScore =
      0.30 * sc.coordinationScore + 0.20 * min (sc.churnScore / 10) 1 +
      0.15 * sc.clusterIsolationScore + 0.10 * sc.newAccountScore +
      0.10 * sc.lowDiversityScore + 0.15 * sc.profileAnomalyScore := by
    simp only [analyzeLogs] at h
    split at h
    · obtain rfl := Except.ok.inj h
      simp at hsc
    · split at h
      · exact absurd h (by simp)
      · obtain rfl := Except.ok.inj h
        simp only at hsc
        obtain ⟨n, _, rfl⟩ := List.mem_map.mp hsc
        rfl
  refine ⟨hform, by norm_num, ?_, ?_, ?_⟩
  · intro h1 h2 h3 h4 h5 h6
    rw [hform, h1, h2, h3, h4, h5, h6]; ring
  · intro h1 h2 h3 h4 h5 h6
    rw [hform, h1, h2, h3, h4, h5, h6]; ring
  · intro a1 a2 b1 c1 c2 d1 d2 e1 e2 f1 f2
    have hb2 : min (sc.churnScore / 10) 1 ≤ 1 := min_le_right _ _
    constructor
    · rw [hform]; positivity
    · rw [hform]; linarith

/-- The concrete result/scorecard used in the C4 witness. -/
def c4res : AnalysisResult :=
  (analyzeLogs trivC c3logs stdSettings).toOption.getD default

def c4sc : ActorScorecard := c4res.scorecards.headI

theorem c4sc_mem : c4sc ∈ c4res.scorecards := by
  have h : c4res.scorecards = c4sc :: c4res.scorecards.tail := rfl
  rw [h]
  exact List.mem_cons_self _ _

/-- C4 witness at a concrete run. -/
theorem analyzeLogs_sybilScore_formula_witness :
    c4sc.sybilScore =
      0.30 * c4sc.coordinationScore + 0.20 * min (c4sc.churnScore / 10) 1 +
      0.15 * c4sc.clusterIsolationScore + 0.10 * c4sc.newAccountScore +
      0.10 * c4sc.lowDiversityScore + 0.15 * c4sc.profileAnomalyScore ∧
    ((0.30 : ℚ) + 0.20 + 0.15 + 0.10 + 0.10 + 0.15 = 1) ∧
    (c4sc.coordinationScore = 0 → min (c4sc.churnScore / 10) 1 = 0 →
      c4sc.clusterIsolationScore = 0 → c4sc.newAccountScore = 0 →
      c4sc.lowDiversityScore = 0 → c4sc.profileAnomalyScore = 0 → c4sc.sybilScore = 0) ∧
    (c4sc.coordinationScore = 1 → min (c4sc.churnScore / 10) 1 = 1 →
      c4sc.clusterIsolationScore = 1 → c4sc.newAccountScore = 1 →
      c4sc.lowDiversityScore = 1 → c4sc.profileAnomalyScore = 1 → c4sc.sybilScore = 1) ∧
    (0 ≤ c4sc.coordinationScore → c4sc.coordinationScore ≤ 1 →
      0 ≤ min (c4sc.churnScore / 10) 1 →
      0 ≤ c4sc.clusterIsolationScore → c4sc.clusterIsolationScore ≤ 1 →
      0 ≤ c4sc.newAccountScore → c4sc.newAccountScore ≤ 1 →
      0 ≤ c4sc.lowDiversityScore → c4sc.lowDiversityScore ≤ 1 →
      0 ≤ c4sc.profileAnomalyScore → c4sc.profileAnomalyScore ≤ 1 →
      0 ≤ c4sc.sybilScore ∧ c4sc.sybilScore ≤ 1) :=
  analyzeLogs_sybilScore_formula trivC c3logs stdSettings c4res rfl c4sc c4sc_mem

/-! ## C6: scores of an actor with zero total actions -/

theorem clusterSizeOf_eq_zero (clusters : List DetailedCluster) (n : String)
    (h : ∀ c ∈ clusters, n ∉ c.members) : clusterSizeOf clusters n = 0 := by
  induction clusters with
  | nil => rfl
  | cons c cs ih =>
    have hc : n ∉ c.members := h c (List.mem_cons_self _ _)
    have hcs : ∀ c' ∈ cs, n ∉ c'.members := fun c' hc' => h c' (List.mem_cons_of_mem _ hc')
    simp only [clusterSizeOf, List.foldl_cons, if_neg hc]
    exact ih hcs

/-- The `lowDiversityScore` branch guard really is the total-action
count. -/
theorem scorecardOf_lowDiversity_zero (C : Collaborators) (logs : List LogEntry)
    (s : AnalysisSettings) (nodes : List String) (clusters : List DetailedCluster)
    (binSize : Int) (triples : List (Int × String × String)) (dsm : Int) (n : String)
    (h0 : (logs.filter (fun l => l.actor = n)).length = 0) :
    (scorecardOf C logs s nodes clusters binSize triples dsm n).lowDiversityScore = 0 := by
  simp only [scorecardOf]
  rw [h0]
  simp

/-- The `clusterIsolationScore` branch guard is the owning-cluster
size, which is zero for a node outside every kept cluster. -/
theorem scorecardOf_isolation_zero (C : Collaborators) (logs : List LogEntry)
    (s : AnalysisSettings) (nodes : List String) (clusters : List DetailedCluster)
    (binSize : Int) (triples : List (Int × String × String)) (dsm : Int) (n : String)
    (h0 : ∀ c ∈ clusters, n ∉ c.members) :
    (scorecardOf C logs s nodes clusters binSize triples dsm n).clusterIsolationScore = 0 := by
  simp only [scorecardOf]
  rw [clusterSizeOf_eq_zero clusters n h0]
  simp

/-- C6 (amended): in every scorecard, an actor with zero total actions
gets `lowDiversityScore = 0` by convention, and an actor belonging to
no kept cluster gets `clusterIsolationScore = 0` by convention.  (The
original claim — zero actions alone forces `clusterIsolationScore = 0`
— is false: the isolation guard is the owning-cluster size, not the
action count; see the counterexample.) -/
theorem analyzeLogs_zero_action_scores (C : Collaborators) (logs : List LogEntry)
    (s : AnalysisSettings) (res : AnalysisResult) (h : analyzeLogs C logs s = .ok res)
    (sc : ActorScorecard) (hsc : sc ∈ res.scorecards) :
    ((logs.filter (fun l => l.actor = sc.actor)).length = 0 → sc.lowDiversityScore = 0) ∧
    ((∀ c ∈ res.clusters, sc.actor ∉ c.members) → sc.clusterIsolationScore = 0) := by
  simp only [analyzeLogs] at h
  split at h
  · obtain rfl := Except.ok.inj h
    simp at hsc
  · split at h
    · exact absurd h (by simp)
    · obtain rfl := Except.ok.inj h
      simp only at hsc
      obtain ⟨n, _, rfl⟩ := List.mem_map.mp hsc
      constructor
      · intro h0
        exact scorecardOf_lowDiversity_zero _ _ _ _ _ _ _ _ _ h0
      · intro h0
        exact scorecardOf_isolation_zero _ _ _ _ _ _ _ _ _ h0

/-- Three actors following one target: the target `t` has zero total
actions yet sits inside the kept cluster `{a, t, b, c}`. -/
def c6logs : List LogEntry :=
  [mkLog "0" "a" "t" "follow", mkLog "0" "b" "t" "follow", mkLog "0" "c" "t" "follow"]

def c6res : AnalysisResult :=
  (analyzeLogs trivC c6logs stdSettings).toOption.getD default

/-- The scorecard of node `t` (second node in insertion order). -/
def c6sc : ActorScorecard := (c6res.scorecards[1]?).getD default

/-- C6 counterexample: `t` performs zero actions, its scorecard is
produced by `analyzeLogs`, and its `clusterIsolationScore` is
`1 − 3/4 ≠ 0` — the claim's `clusterIsolationScore = 0` fails. -/
theorem zero_action_isolation_counterexample :
    analyzeLogs trivC c6logs stdSettings = .ok c6res ∧
    c6res.scorecards[1]? = some c6sc ∧
    c6sc.actor = "t" ∧
    (c6logs.filter (fun l => l.actor = c6sc.actor)).length = 0 ∧
    c6sc.clusterIsolationScore ≠ 0 := by
  refine ⟨rfl, rfl, rfl, by decide, ?_⟩
  have h : c6sc.clusterIsolationScore = 1 - ((3 : Nat) : ℚ) / ((4 : Nat) : ℚ) := rfl
  rw [h]
  norm_num

/-- A run where node `b` has zero actions and no cluster (the only
action is non-positive, so there are no edges at all). -/
def c6wlogs : List LogEntry := [mkLog "0" "a" "b" "unfollow"]

def c6wres : AnalysisResult :=
  (analyzeLogs trivC c6wlogs stdSettings).toOption.getD default

def c6wsc : ActorScorecard := (c6wres.scorecards[1]?).getD default

theorem c6wsc_mem : c6wsc ∈ c6wres.scorecards := by
  have h : c6wres.scorecards =
      c6wres.scorecards.headI :: c6wsc :: c6wres.scorecards.tail.tail := rfl
  rw [h]
  exact List.mem_cons_of_mem _ (List.mem_cons_self _ _)

/-- C6 witness at a concrete run. -/
theorem analyzeLogs_zero_action_scores_witness :
    ((c6wlogs.filter (fun l => l.actor = c6wsc.actor)).length = 0 →
      c6wsc.lowDiversityScore = 0) ∧
    ((∀ c ∈ c6wres.clusters, c6wsc.actor ∉ c.members) →
      c6wsc.clusterIsolationScore = 0) :=
  analyzeLogs_zero_action_scores trivC c6wlogs stdSettings c6wres rfl c6wsc c6wsc_mem

/-! ## C5 and C8: wave characterization -/

theorem mem_enumTriples (ks : List (Int × String × String)) (k : Int × String × String) :
    k ∈ enumTriples ks ↔ k ∈ ks := by
  constructor
  · intro h
    obtain ⟨b, hb, h2⟩ := List.mem_flatMap.mp h
    obtain ⟨a, ha, h3⟩ := List.mem_flatMap.mp h2
    obtain ⟨t, ht, rfl⟩ := List.mem_map.mp h3
    rw [mem_dedupKeepFirst] at ht
    obtain ⟨k3, hk3, hteq⟩ := List.mem_map.mp ht
    obtain ⟨hk3mem, hk3cond⟩ := List.mem_filter.mp hk3
    have hc := of_decide_eq_true hk3cond
    have hk3eq : k3 = (b, a, t) := by
      obtain ⟨b3, a3, t3⟩ := k3
      simp only at hc hteq
      obtain ⟨h1, h2'⟩ := hc
      subst h1
      subst h2'
      subst hteq
      rfl
    rw [← hk3eq]
    exact hk3mem
  · intro hk
    apply List.mem_flatMap.mpr
    refine ⟨k.1, ?_, ?_⟩
    · rw [mem_dedupKeepFirst]
      exact List.mem_map.mpr ⟨k, hk, rfl⟩
    · apply List.mem_flatMap.mpr
      refine ⟨k.2.1, ?_, ?_⟩
      · rw [mem_dedupKeepFirst]
        exact List.mem_map.mpr ⟨k, List.mem_filter.mpr ⟨hk, by simp⟩, rfl⟩
      · apply List.mem_map.mpr
        exact ⟨k.2.2, by
          rw [mem_dedupKeepFirst]
          exact List.mem_map.mpr ⟨k, List.mem_filter.mpr ⟨hk, by simp⟩, rfl⟩, rfl⟩

theorem logKeys_ok_mem (C : Collaborators) (binSize : Int) (logs : List LogEntry)
    (ks : List (Int × String × String)) (h : logKeys C binSize logs = .ok ks)
    (k : Int × String × String) :
    k ∈ ks ↔ ∃ l ∈ logs, logBucket C binSize l = some k.1 ∧
      l.action = k.2.1 ∧ l.target = k.2.2 := by
  induction logs generalizing ks with
  | nil =>
    simp only [logKeys] at h
    obtain rfl := Except.ok.inj h
    simp
  | cons l ls ih =>
    simp only [logKeys] at h
    cases hp : C.parseDate l.timestamp with
    | none =>
      simp only [hp] at h
      exact absurd h (by simp)
    | some tv =>
      simp only [hp] at h
      cases hks : logKeys C binSize ls with
      | error e =>
        simp only [hks] at h
        exact absurd h (by simp)
      | ok ks' =>
        simp only [hks] at h
        obtain rfl := Except.ok.inj h
        constructor
        · intro hmem
          rcases List.mem_cons.mp hmem with heq | hmem'
          · exact ⟨l, List.mem_cons_self _ _, by simp [heq, logBucket, hp],
              by simp [heq], by simp [heq]⟩
          · obtain ⟨l', hl', hcond⟩ := (ih ks' hks).mp hmem'
            exact ⟨l', List.mem_cons_of_mem _ hl', hcond⟩
        · rintro ⟨l', hl', hb, ha, ht⟩
          rcases List.mem_cons.mp hl' with rfl | hl''
          · apply List.mem_cons.mpr
            left
            simp only [logBucket, hp, Option.map_some] at hb
            obtain ⟨b, rest⟩ := k
            obtain ⟨a, t⟩ := rest
            simp only at hb ha ht
            obtain rfl := Option.some.inj hb
            rw [ha, ht]
          · exact List.mem_cons_of_mem _ ((ih ks' hks).mpr ⟨l', hl'', hb, ha, ht⟩)

/-- C5: a wave for `(b, a, t)` is emitted iff that group's event count
and distinct-actor count meet the two thresholds.  (At least one
threshold must be positive, which §6 guarantees since both must be
`≥ 1` in valid settings.) -/
theorem analyzeLogs_wave_iff (C : Collaborators) (logs : List LogEntry)
    (s : AnalysisSettings) (res : AnalysisResult) (h : analyzeLogs C logs s = .ok res)
    (hmin : 1 ≤ s.waveMinCount ∨ 1 ≤ s.waveMinActors) (b : Int) (a t : String) :
    (∃ w ∈ res.waves, w.windowStart = b ∧ w.action = a ∧ w.target = t) ↔
      (s.waveMinCount ≤ (waveGroup C (binSizeMs s) logs b a t).length ∧
        s.waveMinActors ≤ (waveGroupActors C (binSizeMs s) logs b a t).length) := by
  simp only [analyzeLogs] at h
  split at h
  · next hemp =>
    obtain rfl := Except.ok.inj h
    have hlogs : logs = [] := List.isEmpty_iff.mp hemp
    subst hlogs
    constructor
    · rintro ⟨w, hw, -⟩
      simp at hw
    · rintro ⟨h1, h2⟩
      exfalso
      rcases hmin with hm | hm
      · simp [waveGroup] at h1
        omega
      · simp [waveGroupActors, waveGroup, dedupKeepFirst, dedupFirstAux] at h2
        omega
  · split at h
    · exact absurd h (by simp)
    · next ks hks =>
      obtain rfl := Except.ok.inj h
      simp only
      constructor
      · rintro ⟨w, hw, hwb, hwa, hwt⟩
        obtain ⟨k, hk, hemit⟩ := List.mem_filterMap.mp hw
        split at hemit
        · next htest =>
          obtain rfl := Option.some.inj hemit
          simp only at hwb hwa hwt
          have hkeq : k = (b, a, t) := by
            obtain ⟨kb, krest⟩ := k
            obtain ⟨ka, kt⟩ := krest
            simp only at hwb hwa hwt
            rw [hwb, hwa, hwt]
          rw [hkeq] at htest
          exact htest
        · simp at hemit
      · rintro ⟨h1, h2⟩
        have hgrp : ∃ l, l ∈ waveGroup C (binSizeMs s) logs b a t := by
          rcases hmin with hm | hm
          · have : 0 < (waveGroup C (binSizeMs s) logs b a t).length := by omega
            exact List.exists_mem_of_length_pos this
          · have : 0 < (waveGroupActors C (binSizeMs s) logs b a t).length := by omega
            obtain ⟨x, hx⟩ := List.exists_mem_of_length_pos this
            rw [waveGroupActors, mem_dedupKeepFirst] at hx
            obtain ⟨l, hl, -⟩ := List.mem_map.mp hx
            exact ⟨l, hl⟩
        obtain ⟨l, hl⟩ := hgrp
        obtain ⟨hlmem, hlcond⟩ := List.mem_filter.mp hl
        have hc := of_decide_eq_true hlcond
        have hkmem : (b, a, t) ∈ ks :=
          (logKeys_ok_mem C (binSizeMs s) logs ks hks (b, a, t)).mpr
            ⟨l, hlmem, hc.1, hc.2.1, hc.2.2⟩
        refine ⟨{ windowStart := b
                  windowEnd := b + binSizeMs s
                  action := a
                  target := t
                  actors := waveGroupActors C (binSizeMs s) logs b a t
                  zScore := ((waveGroup C (binSizeMs s) logs b a t).length : ℚ) /
                    ((max 1 s.waveMinCount : Nat) : ℚ) }, ?_, rfl, rfl, rfl⟩
        apply List.mem_filterMap.mpr
        refine ⟨(b, a, t), (mem_enumTriples ks (b, a, t)).mpr hkmem, ?_⟩
        rw [if_pos]
        exact ⟨h1, h2⟩

/-- C8: raising either wave threshold only removes waves — every wave
emitted under the higher thresholds is emitted (same window, action,
target and actor set) under the lower ones. -/
theorem analyzeLogs_wave_monotone (C : Collaborators) (logs : List LogEntry)
    (s s' : AnalysisSettings) (res res' : AnalysisResult)
    (h : analyzeLogs C logs s = .ok res) (h' : analyzeLogs C logs s' = .ok res')
    (hbin : s.timeBinMinutes = s'.timeBinMinutes)
    (hc : s.waveMinCount ≤ s'.waveMinCount)
    (ha : s.waveMinActors ≤ s'.waveMinActors) :
    ∀ w' ∈ res'.waves, ∃ w ∈ res.waves,
      w.windowStart = w'.windowStart ∧ w.windowEnd = w'.windowEnd ∧
      w.action = w'.action ∧ w.target = w'.target ∧ w.actors = w'.actors := by
  have hbs : binSizeMs s = binSizeMs s' := by simp [binSizeMs, hbin]
  simp only [analyzeLogs] at h h'
  split at h
  · next hemp =>
    obtain rfl := Except.ok.inj h
    rw [if_pos hemp] at h'
    obtain rfl := Except.ok.inj h'
    intro w' hw'
    simp at hw'
  · next hemp =>
    rw [if_neg hemp] at h'
    rw [← hbs] at h'
    split at h
    · exact absurd h (by simp)
    · next ks hks =>
      rw [hks] at h'
      obtain rfl := Except.ok.inj h
      obtain rfl := Except.ok.inj h'
      simp only
      intro w' hw'
      obtain ⟨k, hk, hemit⟩ := List.mem_filterMap.mp hw'
      split at hemit
      · next htest =>
        obtain rfl := Option.some.inj hemit
        refine ⟨{ windowStart := k.1
                  windowEnd := k.1 + binSizeMs s
                  action := k.2.1
                  target := k.2.2
                  actors := waveGroupActors C (binSizeMs s) logs k.1 k.2.1 k.2.2
                  zScore := ((waveGroup C (binSizeMs s) logs k.1 k.2.1 k.2.2).length : ℚ) /
                    ((max 1 s.waveMinCount : Nat) : ℚ) }, ?_, rfl, rfl, rfl, rfl, rfl⟩
        apply List.mem_filterMap.mpr
        refine ⟨k, hk, ?_⟩
        rw [if_pos]
        obtain ⟨ht1, ht2⟩ := htest
        exact ⟨le_trans hc ht1, le_trans ha ht2⟩
      · simp at hemit

/-- The spec §8 scenario: three actors follow `T` inside one 5-minute
bin. -/
def c5logs : List LogEntry :=
  [mkLog "0" "a" "T" "follow", mkLog "60000" "b" "T" "follow",
   mkLog "120000" "c" "T" "follow"]

def c5res : AnalysisResult :=
  (analyzeLogs trivC c5logs stdSettings).toOption.getD default

/-- C5 witness at the concrete three-follower run. -/
theorem analyzeLogs_wave_iff_witness :
    (∃ w ∈ c5res.waves, w.windowStart = 0 ∧ w.action = "follow" ∧ w.target = "T") ↔
      (stdSettings.waveMinCount ≤
        (waveGroup trivC (binSizeMs stdSettings) c5logs 0 "follow" "T").length ∧
       stdSettings.waveMinActors ≤
        (waveGroupActors trivC (binSizeMs stdSettings) c5logs 0 "follow" "T").length) :=
  analyzeLogs_wave_iff trivC c5logs stdSettings c5res rfl (Or.inl (by decide)) 0 "follow" "T"

/-- Lower thresholds for the C8 witness. -/
def c8sLow : AnalysisSettings :=
  { stdSettings with
    waveMinCount := 2
    waveMinActors := 2 }

def c8resLow : AnalysisResult :=
  (analyzeLogs trivC c5logs c8sLow).toOption.getD default

/-- C8 witness: raising (2,2) to (3,3) on the three-follower run — the
single wave surviving the higher thresholds is also emitted under the
lower ones. -/
theorem analyzeLogs_wave_monotone_witness :
    c8resLow.waves.headI ∈ c8resLow.waves ∧
    c8resLow.waves.headI.windowStart = c5res.waves.headI.windowStart ∧
    c8resLow.waves.headI.windowEnd = c5res.waves.headI.windowEnd ∧
    c8resLow.waves.headI.action = c5res.waves.headI.action ∧
    c8resLow.waves.headI.target = c5res.waves.headI.target ∧
    c8resLow.waves.headI.actors = c5res.waves.headI.actors := by
  have hmem : c5res.waves.headI ∈ c5res.waves := by
    have h : c5res.waves = c5res.waves.headI :: c5res.waves.tail := rfl
    rw [h]
    exact List.mem_cons_self _ _
  obtain ⟨w, hw, h1, h2, h3, h4, h5⟩ :=
    analyzeLogs_wave_monotone trivC c5logs c8sLow stdSettings c8resLow c5res rfl rfl rfl
      (by decide) (by decide) (c5res.waves.headI) hmem
  have hlist : c8resLow.waves = [c8resLow.waves.headI] := rfl
  rw [hlist] at hw
  obtain rfl := List.mem_singleton.mp hw
  exact ⟨by rw [hlist]; exact List.mem_cons_self _ _, h1, h2, h3, h4, h5⟩

/-! ## C7 and C2: DFS correctness

The iterative DFS of the cluster detector is characterized against
reachability over the undirected adjacency. -/

/-- One undirected-adjacency step. -/
def adjStep (g : String → List String) (x y : String) : Prop := y ∈ g x

theorem dfsNeighbors_fst_mem (ns : List String) :
    ∀ visited stack x, x ∈ (dfsNeighbors visited stack ns).1 ↔ x ∈ visited ∨ x ∈ ns := by
  induction ns with
  | nil => intro visited stack x; simp [dfsNeighbors]
  | cons n ns ih =>
    intro visited stack x
    by_cases hn : n ∈ visited
    · simp only [dfsNeighbors, if_pos hn, ih]
      constructor
      · rintro (h | h)
        · exact Or.inl h
        · exact Or.inr (List.mem_cons_of_mem _ h)
      · rintro (h | h)
        · exact Or.inl h
        · rcases List.mem_cons.mp h with rfl | h
          · exact Or.inl hn
          · exact Or.inr h
    · simp only [dfsNeighbors, if_neg hn, ih]
      constructor
      · rintro (h | h)
        · rcases List.mem_cons.mp h with rfl | h
          · exact Or.inr (List.mem_cons_self _ _)
          · exact Or.inl h
        · exact Or.inr (List.mem_cons_of_mem _ h)
      · rintro (h | h)
        · exact Or.inl (List.mem_cons_of_mem _ h)
        · rcases List.mem_cons.mp h with rfl | h
          · exact Or.inl (List.mem_cons_self _ _)
          · exact Or.inr h

theorem dfsNeighbors_snd_mem (ns : List String) :
    ∀ visited stack x, x ∈ (dfsNeighbors visited stack ns).2 ↔
      x ∈ stack ∨ (x ∈ ns ∧ x ∉ visited) := by
  induction ns with
  | nil => intro visited stack x; simp [dfsNeighbors]
  | cons n ns ih =>
    intro visited stack x
    by_cases hn : n ∈ visited
    · simp only [dfsNeighbors, if_pos hn, ih]
      constructor
      · rintro (h | ⟨h1, h2⟩)
        · exact Or.inl h
        · exact Or.inr ⟨List.mem_cons_of_mem _ h1, h2⟩
      · rintro (h | ⟨h1, h2⟩)
        · exact Or.inl h
        · rcases List.mem_cons.mp h1 with rfl | h1
          · exact absurd hn h2
          · exact Or.inr ⟨h1, h2⟩
    · simp only [dfsNeighbors, if_neg hn, ih]
      constructor
      · rintro (h | ⟨h1, h2⟩)
        · rcases List.mem_cons.mp h with rfl | h
          · exact Or.inr ⟨List.mem_cons_self _ _, hn⟩
          · exact Or.inl h
        · refine Or.inr ⟨List.mem_cons_of_mem _ h1, fun hv => h2 (List.mem_cons_of_mem _ hv)⟩
      · rintro (h | ⟨h1, h2⟩)
        · exact Or.inl (List.mem_cons_of_mem _ h)
        · rcases List.mem_cons.mp h1 with rfl | h1
          · exact Or.inl (List.mem_cons_self _ _)
          · by_cases hxn : x = n
            · exact Or.inl (hxn ▸ List.mem_cons_self _ _)
            · refine Or.inr ⟨h1, ?_⟩
              intro hv
              rcases List.mem_cons.mp hv with h' | h'
              · exact hxn h'
              · exact h2 h'

theorem dfsNeighbors_stack_invariants (ns : List String) :
    ∀ visited stack, (∀ x ∈ stack, x ∈ visited) → stack.Nodup →
      (∀ x ∈ (dfsNeighbors visited stack ns).2, x ∈ (dfsNeighbors visited stack ns).1) ∧
        (dfsNeighbors visited stack ns).2.Nodup := by
  induction ns with
  | nil => intro visited stack h1 h2; exact ⟨h1, h2⟩
  | cons n ns ih =>
    intro visited stack h1 h2
    by_cases hn : n ∈ visited
    · simpa only [dfsNeighbors, if_pos hn] using ih visited stack h1 h2
    · simp only [dfsNeighbors, if_neg hn]
      apply ih (n :: visited) (n :: stack)
      · intro x hx
        rcases List.mem_cons.mp hx with rfl | hx
        · exact List.mem_cons_self _ _
        · exact List.mem_cons_of_mem _ (h1 x hx)
      · refine List.nodup_cons.mpr ⟨fun hmem => hn (h1 n hmem), h2⟩

theorem length_filter_cons_visited (l : List String) (n : String) :
    ∀ visited : List String, l.Nodup → n ∈ l → n ∉ visited →
      (l.filter (fun x => x ∉ visited)).length =
        (l.filter (fun x => x ∉ n :: visited)).length + 1 := by
  induction l with
  | nil => intro visited _ hn _; simp at hn
  | cons a as ih =>
    intro visited hl hn hnv
    obtain ⟨ha, has⟩ := List.nodup_cons.mp hl
    by_cases han : a = n
    · subst han
      have hcong : as.filter (fun x => x ∉ visited) =
          as.filter (fun x => x ∉ a :: visited) := by
        apply List.filter_congr
        intro x hx
        have hxa : x ≠ a := fun h => ha (h ▸ hx)
        simp [hxa]
      rw [List.filter_cons, List.filter_cons, hcong]
      simp [hnv]
    · have hnas : n ∈ as := by
        rcases List.mem_cons.mp hn with h | h
        · exact absurd h.symm han
        · exact h
      have hrec := ih visited has hnas hnv
      rw [List.filter_cons, List.filter_cons]
      by_cases hav : a ∈ visited
      · rw [if_neg (by simp [hav] : ¬(decide (a ∉ visited) = true)),
          if_neg (by simp [hav] : ¬(decide (a ∉ n :: visited) = true))]
        exact hrec
      · rw [if_pos (by simp [hav] : decide (a ∉ visited) = true),
          if_pos (by simp [han, hav] : decide (a ∉ n :: visited) = true)]
        simp only [List.length_cons]
        omega
  
theorem dfsNeighbors_measure (allNodes : List String) (hall : allNodes.Nodup)
    (ns : List String) :
    ∀ visited stack, (∀ x ∈ ns, x ∈ allNodes) →
      (dfsNeighbors visited stack ns).2.length +
        (allNodes.filter (fun x => x ∉ (dfsNeighbors visited stack ns).1)).length =
      stack.length + (allNodes.filter (fun x => x ∉ visited)).length := by
  induction ns with
  | nil => intro visited stack _; rfl
  | cons n ns ih =>
    intro visited stack hns
    have hns' : ∀ x ∈ ns, x ∈ allNodes := fun x hx => hns x (List.mem_cons_of_mem _ hx)
    by_cases hn : n ∈ visited
    · simpa only [dfsNeighbors, if_pos hn] using ih visited stack hns'
    · simp only [dfsNeighbors, if_neg hn]
      rw [ih (n :: visited) (n :: stack) hns']
      simp only [List.length_cons]
      rw [length_filter_cons_visited allNodes n visited hall
        (hns n (List.mem_cons_self _ _)) hn]
      omega

/-- Full specification of the iterative DFS loop, given enough fuel:
the returned visited set is the old one plus the returned component;
the component is duplicate-free, closed under adjacency into the new
visited set, contains everything that was pending, consists of nodes
reachable from the pending stack, and contains no previously-visited
node beyond the pending ones. -/
theorem dfsLoop_spec (g : String → List String) (allNodes : List String)
    (hall : allNodes.Nodup) (hg : ∀ x, ∀ y ∈ g x, y ∈ allNodes) :
    ∀ fuel visited stack comp,
      (∀ x ∈ stack, x ∈ visited) →
      stack.Nodup →
      comp.Nodup →
      (∀ x ∈ comp, x ∈ visited) →
      (∀ x ∈ comp, x ∉ stack) →
      (∀ x ∈ comp, ∀ y ∈ g x, y ∈ visited) →
      stack.length + (allNodes.filter (fun x => x ∉ visited)).length < fuel →
      (∀ x, x ∈ (dfsLoop g fuel visited stack comp).1 ↔
          x ∈ visited ∨ x ∈ (dfsLoop g fuel visited stack comp).2) ∧
      (dfsLoop g fuel visited stack comp).2.Nodup ∧
      (∀ x ∈ (dfsLoop g fuel visited stack comp).2, ∀ y ∈ g x,
          y ∈ (dfsLoop g fuel visited stack comp).1) ∧
      (∀ x, x ∈ comp ∨ x ∈ stack → x ∈ (dfsLoop g fuel visited stack comp).2) ∧
      (∀ x ∈ (dfsLoop g fuel visited stack comp).2,
          x ∈ comp ∨ ∃ z ∈ stack, Relation.ReflTransGen (adjStep g) z x) ∧
      (∀ x ∈ (dfsLoop g fuel visited stack comp).2,
          x ∈ comp ∨ x ∈ stack ∨ x ∉ visited) := by
  intro fuel
  induction fuel with
  | zero =>
    intro visited stack comp _ _ _ _ _ _ hfuel
    omega
  | succ fuel ih =>
    intro visited stack comp hsv hsn hcn hcv hcs hcc hfuel
    cases stack with
    | nil =>
      refine ⟨?_, hcn, hcc, ?_, ?_, ?_⟩
      · intro x
        constructor
        · exact Or.inl
        · rintro (h | h)
          · exact h
          · exact hcv x h
      · intro x hx
        rcases hx with h | h
        · exact h
        · simp at h
      · intro x hx
        exact Or.inl hx
      · intro x hx
        exact Or.inl hx
    | cons node rest =>
      have hrestv : ∀ x ∈ rest, x ∈ visited :=
        fun x hx => hsv x (List.mem_cons_of_mem _ hx)
      obtain ⟨hnodestack, hrestn⟩ := List.nodup_cons.mp hsn
      have hnodev : node ∈ visited := hsv node (List.mem_cons_self _ _)
      obtain ⟨hps, hpn⟩ := dfsNeighbors_stack_invariants (g node) visited rest hrestv hrestn
      have hre : dfsLoop g (fuel + 1) visited (node :: rest) comp =
          dfsLoop g fuel (dfsNeighbors visited rest (g node)).1
            (dfsNeighbors visited rest (g node)).2 (comp ++ [node]) := rfl
      have inv3 : (comp ++ [node]).Nodup := by
        rw [List.nodup_append]
        refine ⟨hcn, List.nodup_singleton _, ?_⟩
        intro a ha ha'
        rcases List.mem_singleton.mp ha' with rfl
        exact hcs a ha (List.mem_cons_self _ _)
      have inv4 : ∀ x ∈ comp ++ [node], x ∈ (dfsNeighbors visited rest (g node)).1 := by
        intro x hx
        rcases List.mem_append.mp hx with h | h
        · exact (dfsNeighbors_fst_mem (g node) visited rest x).mpr (Or.inl (hcv x h))
        · rcases List.mem_singleton.mp h with rfl
          exact (dfsNeighbors_fst_mem _ visited rest _).mpr (Or.inl hnodev)
      have inv5 : ∀ x ∈ comp ++ [node], x ∉ (dfsNeighbors visited rest (g node)).2 := by
        intro x hx hmem
        rcases (dfsNeighbors_snd_mem (g node) visited rest x).mp hmem with h | ⟨_, h2⟩
        · rcases List.mem_append.mp hx with h' | h'
          · exact hcs x h' (List.mem_cons_of_mem _ h)
          · rcases List.mem_singleton.mp h' with rfl
            exact hnodestack h
        · rcases List.mem_append.mp hx with h' | h'
          · exact h2 (hcv x h')
          · rcases List.mem_singleton.mp h' with rfl
            exact h2 hnodev
      have inv6 : ∀ x ∈ comp ++ [node], ∀ y ∈ g x,
          y ∈ (dfsNeighbors visited rest (g node)).1 := by
        intro x hx y hy
        rcases List.mem_append.mp hx with h | h
        · exact (dfsNeighbors_fst_mem (g node) visited rest y).mpr (Or.inl (hcc x h y hy))
        · rcases List.mem_singleton.mp h with rfl
          exact (dfsNeighbors_fst_mem _ visited rest y).mpr (Or.inr hy)
      have invfuel : (dfsNeighbors visited rest (g node)).2.length +
          (allNodes.filter (fun x =>
            x ∉ (dfsNeighbors visited rest (g node)).1)).length < fuel := by
        have hmeas := dfsNeighbors_measure allNodes hall (g node) visited rest (hg node)
        simp only [List.length_cons] at hfuel
        omega
      obtain ⟨i1, i2, i3, i4, i5, i6⟩ :=
        ih (dfsNeighbors visited rest (g node)).1 (dfsNeighbors visited rest (g node)).2
          (comp ++ [node]) hps hpn inv3 inv4 inv5 inv6 invfuel
      rw [hre]
      refine ⟨?_, i2, i3, ?_, ?_, ?_⟩
      · intro x
        rw [i1 x]
        constructor
        · rintro (h | h)
          · rcases (dfsNeighbors_fst_mem (g node) visited rest x).mp h with h' | h'
            · exact Or.inl h'
            · by_cases hxv : x ∈ visited
              · exact Or.inl hxv
              · refine Or.inr (i4 x (Or.inr ?_))
                exact (dfsNeighbors_snd_mem (g node) visited rest x).mpr (Or.inr ⟨h', hxv⟩)
          · exact Or.inr h
        · rintro (h | h)
          · exact Or.inl ((dfsNeighbors_fst_mem (g node) visited rest x).mpr (Or.inl h))
          · exact Or.inr h
      · intro x hx
        rcases hx with h | h
        · exact i4 x (Or.inl (List.mem_append.mpr (Or.inl h)))
        · rcases List.mem_cons.mp h with rfl | h'
          · exact i4 x (Or.inl (List.mem_append.mpr (Or.inr (List.mem_singleton.mpr rfl))))
          · refine i4 x (Or.inr ?_)
            exact (dfsNeighbors_snd_mem (g node) visited rest x).mpr (Or.inl h')
      · intro x hx
        rcases i5 x hx with h | ⟨z, hz, hr⟩
        · rcases List.mem_append.mp h with h' | h'
          · exact Or.inl h'
          · rcases List.mem_singleton.mp h' with rfl
            exact Or.inr ⟨x, List.mem_cons_self _ _, Relation.ReflTransGen.refl⟩
        · rcases (dfsNeighbors_snd_mem (g node) visited rest z).mp hz with h' | ⟨h1, _⟩
          · exact Or.inr ⟨z, List.mem_cons_of_mem _ h', hr⟩
          · exact Or.inr ⟨node, List.mem_cons_self _ _, Relation.ReflTransGen.head h1 hr⟩
      · intro x hx
        rcases i6 x hx with h | h | h
        · rcases List.mem_append.mp h with h' | h'
          · exact Or.inl h'
          · rcases List.mem_singleton.mp h' with rfl
            exact Or.inr (Or.inl (List.mem_cons_self _ _))
        · rcases (dfsNeighbors_snd_mem (g node) visited rest x).mp h with h' | ⟨_, h2⟩
          · exact Or.inr (Or.inl (List.mem_cons_of_mem _ h'))
          · exact Or.inr (Or.inr h2)
        · refine Or.inr (Or.inr ?_)
          intro hxv
          exact h ((dfsNeighbors_fst_mem (g node) visited rest x).mpr (Or.inl hxv))

theorem reach_symm (g : String → List String) (hsym : ∀ x y, y ∈ g x → x ∈ g y)
    {a b : String} (h : Relation.ReflTransGen (adjStep g) a b) :
    Relation.ReflTransGen (adjStep g) b a := by
  induction h with
  | refl => exact Relation.ReflTransGen.refl
  | tail _ h2 ih => exact Relation.ReflTransGen.head (hsym _ _ h2) ih

theorem mkCluster_members (g : String → List String) (cid : Nat) (comp : List String) :
    (mkCluster g cid comp).members = comp := rfl

/-- A DFS started at an unvisited node over an adjacency-closed
visited set computes exactly the reachable set of the start node. -/
theorem dfs_component_spec (g : String → List String) (allNodes : List String)
    (hall : allNodes.Nodup) (hg : ∀ x, ∀ y ∈ g x, y ∈ allNodes)
    (hsym : ∀ x y, y ∈ g x → x ∈ g y)
    (visited₀ : List String) (hclosed : ∀ x ∈ visited₀, ∀ y ∈ g x, y ∈ visited₀)
    (start : String) (hstart : start ∈ allNodes) (hstartv : start ∉ visited₀) :
    (∀ x, x ∈ (dfsLoop g (allNodes.length + 1) (start :: visited₀) [start] []).2 ↔
        Relation.ReflTransGen (adjStep g) start x) ∧
    (dfsLoop g (allNodes.length + 1) (start :: visited₀) [start] []).2.Nodup ∧
    (∀ x, x ∈ (dfsLoop g (allNodes.length + 1) (start :: visited₀) [start] []).1 ↔
        x ∈ visited₀ ∨
          x ∈ (dfsLoop g (allNodes.length + 1) (start :: visited₀) [start] []).2) ∧
    (∀ x ∈ (dfsLoop g (allNodes.length + 1) (start :: visited₀) [start] []).1,
        ∀ y ∈ g x, y ∈ (dfsLoop g (allNodes.length + 1) (start :: visited₀) [start] []).1) ∧
    (∀ x ∈ (dfsLoop g (allNodes.length + 1) (start :: visited₀) [start] []).2,
        x ∉ visited₀) := by
  have hfuel : ([start] : List String).length +
      (allNodes.filter (fun x => x ∉ start :: visited₀)).length < allNodes.length + 1 := by
    have hlt : (allNodes.filter (fun x => x ∉ start :: visited₀)).length <
        allNodes.length := by
      apply List.length_filter_lt_length_iff_exists.mpr
      exact ⟨start, hstart, by simp⟩
    simp only [List.length_singleton]
    omega
  obtain ⟨i1, i2, i3, i4, i5, i6⟩ :=
    dfsLoop_spec g allNodes hall hg (allNodes.length + 1) (start :: visited₀) [start] []
      (fun x hx => by rcases List.mem_singleton.mp hx with rfl; exact List.mem_cons_self _ _)
      (List.nodup_singleton _) List.nodup_nil (fun x hx => by simp at hx)
      (fun x hx => by simp at hx) (fun x hx => by simp at hx) hfuel
  have hdisj : ∀ x ∈ (dfsLoop g (allNodes.length + 1) (start :: visited₀) [start] []).2,
      x ∉ visited₀ := by
    intro x hx
    rcases i6 x hx with h | h | h
    · simp at h
    · rcases List.mem_singleton.mp h with rfl
      exact hstartv
    · intro hv
      exact h (List.mem_cons_of_mem _ hv)
  have hstartmem : start ∈ (dfsLoop g (allNodes.length + 1) (start :: visited₀) [start] []).2 :=
    i4 start (Or.inr (List.mem_singleton.mpr rfl))
  have hvchar : ∀ x,
      x ∈ (dfsLoop g (allNodes.length + 1) (start :: visited₀) [start] []).1 ↔
        x ∈ visited₀ ∨
          x ∈ (dfsLoop g (allNodes.length + 1) (start :: visited₀) [start] []).2 := by
    intro x
    rw [i1 x]
    constructor
    · rintro (h | h)
      · rcases List.mem_cons.mp h with rfl | h'
        · exact Or.inr hstartmem
        · exact Or.inl h'
      · exact Or.inr h
    · rintro (h | h)
      · exact Or.inl (List.mem_cons_of_mem _ h)
      · exact Or.inr h
  have hclosure : ∀ x ∈ (dfsLoop g (allNodes.length + 1) (start :: visited₀) [start] []).1,
      ∀ y ∈ g x, y ∈ (dfsLoop g (allNodes.length + 1) (start :: visited₀) [start] []).1 := by
    intro x hx y hy
    rcases (hvchar x).mp hx with h | h
    · exact (hvchar y).mpr (Or.inl (hclosed x h y hy))
    · exact i3 x h y hy
  refine ⟨?_, i2, hvchar, hclosure, hdisj⟩
  intro x
  constructor
  · intro hx
    rcases i5 x hx with h | ⟨z, hz, hr⟩
    · simp at h
    · rcases List.mem_singleton.mp hz with rfl
      exact hr
  · intro hr
    induction hr with
    | refl => exact hstartmem
    | tail h1 h2 ihr =>
      rename_i b c
      have hb := ihr
      have hc1 : c ∈ (dfsLoop g (allNodes.length + 1) (start :: visited₀) [start] []).1 :=
        i3 b hb c h2
      rcases (hvchar c).mp hc1 with h | h
      · exfalso
        have : b ∈ visited₀ := hclosed c h b (hsym b c h2)
        exact hdisj b hb this
      · exact h

/-- `componentOf` (a fresh DFS) computes exactly the reachable set. -/
theorem componentOf_spec (g : String → List String) (allNodes : List String)
    (hall : allNodes.Nodup) (hg : ∀ x, ∀ y ∈ g x, y ∈ allNodes)
    (hsym : ∀ x y, y ∈ g x → x ∈ g y) (x : String) (hx : x ∈ allNodes) :
    (∀ y, y ∈ componentOf g (allNodes.length + 1) x ↔
        Relation.ReflTransGen (adjStep g) x y) ∧
    (componentOf g (allNodes.length + 1) x).Nodup := by
  obtain ⟨h1, h2, _, _, _⟩ :=
    dfs_component_spec g allNodes hall hg hsym [] (fun a ha => by simp at ha) x hx
      (by simp)
  exact ⟨h1, h2⟩

theorem length_eq_of_nodup_set_eq (l l' : List String) (h1 : l.Nodup) (h2 : l'.Nodup)
    (h : ∀ a, a ∈ l ↔ a ∈ l') : l.length = l'.length :=
  List.Perm.length_eq ((List.perm_ext_iff_of_nodup h1 h2).mpr h)

/-- Two nodes in the same reachable set have the same reachable set. -/
theorem reach_set_eq (g : String → List String) (hsym : ∀ x y, y ∈ g x → x ∈ g y)
    {n x : String} (hnx : Relation.ReflTransGen (adjStep g) n x) (y : String) :
    Relation.ReflTransGen (adjStep g) x y ↔ Relation.ReflTransGen (adjStep g) n y := by
  constructor
  · intro h
    exact Relation.ReflTransGen.trans hnx h
  · intro h
    exact Relation.ReflTransGen.trans (reach_symm g hsym hnx) h

theorem reach_mem_allNodes (g : String → List String) (allNodes : List String)
    (hg : ∀ x, ∀ y ∈ g x, y ∈ allNodes) {a b : String} (ha : a ∈ allNodes)
    (h : Relation.ReflTransGen (adjStep g) a b) : b ∈ allNodes := by
  induction h with
  | refl => exact ha
  | tail _ h2 ihr => exact hg _ _ h2

/-- Full specification of the component-discovery loop: every produced
cluster is a duplicate-free connected component of size at least
`minSize` disjoint from the incoming visited set and is the
`mkCluster` of its own members; distinct clusters are disjoint; and
every pending unvisited node whose component is large enough lands in
some cluster. -/
theorem clustersGo_spec (g : String → List String) (allNodes : List String)
    (hall : allNodes.Nodup) (hg : ∀ x, ∀ y ∈ g x, y ∈ allNodes)
    (hsym : ∀ x y, y ∈ g x → x ∈ g y) (minSize : Nat) :
    ∀ ns visited cid,
      (∀ x ∈ visited, ∀ y ∈ g x, y ∈ visited) →
      (∀ x ∈ ns, x ∈ allNodes) →
      (∀ c ∈ clustersGo g (allNodes.length + 1) minSize ns visited cid,
        c.members.Nodup ∧ minSize ≤ c.members.length ∧
        (∀ x ∈ c.members, x ∉ visited) ∧
        (∃ cid', c = mkCluster g cid' c.members) ∧
        (∀ x ∈ c.members, ∀ y,
          (y ∈ c.members ↔ Relation.ReflTransGen (adjStep g) x y)) ∧
        (∀ x ∈ c.members, x ∈ allNodes)) ∧
      (clustersGo g (allNodes.length + 1) minSize ns visited cid).Pairwise
        (fun c c' => ∀ x ∈ c.members, x ∉ c'.members) ∧
      (∀ x ∈ ns, x ∉ visited →
        minSize ≤ (componentOf g (allNodes.length + 1) x).length →
        ∃ c ∈ clustersGo g (allNodes.length + 1) minSize ns visited cid,
          x ∈ c.members) := by
  intro ns
  induction ns with
  | nil =>
    intro visited cid _ _
    refine ⟨?_, ?_, ?_⟩
    · intro c hc; simp [clustersGo] at hc
    · simp [clustersGo]
    · intro x hx; simp at hx
  | cons n rest ih =>
    intro visited cid hclosed hns
    have hrest : ∀ x ∈ rest, x ∈ allNodes := fun x hx => hns x (List.mem_cons_of_mem _ hx)
    have hnall : n ∈ allNodes := hns n (List.mem_cons_self _ _)
    by_cases hnv : n ∈ visited
    · have hre : clustersGo g (allNodes.length + 1) minSize (n :: rest) visited cid =
          clustersGo g (allNodes.length + 1) minSize rest visited cid := by
        simp [clustersGo, hnv]
      obtain ⟨j1, j2, j3⟩ := ih visited cid hclosed hrest
      rw [hre]
      refine ⟨j1, j2, ?_⟩
      intro x hx hxv hsize
      rcases List.mem_cons.mp hx with rfl | hx'
      · exact absurd hnv hxv
      · exact j3 x hx' hxv hsize
    · obtain ⟨d1, d2, d3, d4, d5⟩ :=
        dfs_component_spec g allNodes hall hg hsym visited hclosed n hnall hnv
      have hclosed' : ∀ x ∈ (dfsLoop g (allNodes.length + 1) (n :: visited) [n] []).1,
          ∀ y ∈ g x, y ∈ (dfsLoop g (allNodes.length + 1) (n :: visited) [n] []).1 := d4
      have hcompsub : ∀ x ∈ (dfsLoop g (allNodes.length + 1) (n :: visited) [n] []).2,
          x ∈ (dfsLoop g (allNodes.length + 1) (n :: visited) [n] []).1 :=
        fun x hx => (d3 x).mpr (Or.inr hx)
      -- characterization of the members of this component
      have hchar : ∀ x ∈ (dfsLoop g (allNodes.length + 1) (n :: visited) [n] []).2, ∀ y,
          (y ∈ (dfsLoop g (allNodes.length + 1) (n :: visited) [n] []).2 ↔
            Relation.ReflTransGen (adjStep g) x y) := by
        intro x hx y
        rw [d1 y, reach_set_eq g hsym ((d1 x).mp hx)]
      -- componentOf length agrees with this component's length
      have hcomplen : ∀ x ∈ (dfsLoop g (allNodes.length + 1) (n :: visited) [n] []).2,
          (componentOf g (allNodes.length + 1) x).length =
            (dfsLoop g (allNodes.length + 1) (n :: visited) [n] []).2.length := by
        intro x hx
        have hxall : x ∈ allNodes := by
          rcases ((d1 x).mp hx) with h
          clear hx
          induction h with
          | refl => exact hnall
          | tail _ h2 ihr => exact hg _ _ h2
        obtain ⟨c1, c2⟩ := componentOf_spec g allNodes hall hg hsym x hxall
        apply length_eq_of_nodup_set_eq _ _ c2 d2
        intro a
        rw [c1 a, hchar x hx a]
      by_cases hsize : (dfsLoop g (allNodes.length + 1) (n :: visited) [n] []).2.length <
          minSize
      · have hre : clustersGo g (allNodes.length + 1) minSize (n :: rest) visited cid =
            clustersGo g (allNodes.length + 1) minSize rest
              (dfsLoop g (allNodes.length + 1) (n :: visited) [n] []).1 cid := by
          simp [clustersGo, hnv, hsize]
        obtain ⟨j1, j2, j3⟩ := ih (dfsLoop g (allNodes.length + 1) (n :: visited) [n] []).1
          cid hclosed' hrest
        rw [hre]
        refine ⟨?_, j2, ?_⟩
        · intro c hc
          obtain ⟨k1, k2, k3, k4, k5, k6⟩ := j1 c hc
          exact ⟨k1, k2, fun x hx hxv =>
            k3 x hx ((d3 x).mpr (Or.inl hxv)), k4, k5, k6⟩
        · intro x hx hxv hs
          rcases List.mem_cons.mp hx with rfl | hx'
          · exfalso
            have hxc : x ∈ (dfsLoop g (allNodes.length + 1) (x :: visited) [x] []).2 :=
              (d1 x).mpr Relation.ReflTransGen.refl
            have := hcomplen x hxc
            omega
          · by_cases hxc : x ∈ (dfsLoop g (allNodes.length + 1) (n :: visited) [n] []).2
            · exfalso
              have := hcomplen x hxc
              omega
            · refine j3 x hx' ?_ hs
              intro hmem
              rcases (d3 x).mp hmem with h | h
              · exact hxv h
              · exact hxc h
      · have hre : clustersGo g (allNodes.length + 1) minSize (n :: rest) visited cid =
            mkCluster g cid (dfsLoop g (allNodes.length + 1) (n :: visited) [n] []).2 ::
              clustersGo g (allNodes.length + 1) minSize rest
                (dfsLoop g (allNodes.length + 1) (n :: visited) [n] []).1 (cid + 1) := by
          simp [clustersGo, hnv, hsize]
        obtain ⟨j1, j2, j3⟩ := ih (dfsLoop g (allNodes.length + 1) (n :: visited) [n] []).1
          (cid + 1) hclosed' hrest
        rw [hre]
        refine ⟨?_, ?_, ?_⟩
        · intro c hc
          rcases List.mem_cons.mp hc with rfl | hc'
          · rw [mkCluster_members]
            exact ⟨d2, by omega, d5, ⟨cid, rfl⟩, hchar,
              fun x hx => reach_mem_allNodes g allNodes hg hnall ((d1 x).mp hx)⟩
          · obtain ⟨k1, k2, k3, k4, k5, k6⟩ := j1 c hc'
            exact ⟨k1, k2, fun x hx hxv =>
              k3 x hx ((d3 x).mpr (Or.inl hxv)), k4, k5, k6⟩
        · apply List.Pairwise.cons
          · intro c' hc' x hx
            rw [mkCluster_members] at hx
            obtain ⟨_, _, k3, _, _, _⟩ := j1 c' hc'
            intro hmem
            exact k3 x hmem (hcompsub x hx)
          · exact j2
        · intro x hx hxv hs
          by_cases hxc : x ∈ (dfsLoop g (allNodes.length + 1) (n :: visited) [n] []).2
          · exact ⟨mkCluster g cid (dfsLoop g (allNodes.length + 1) (n :: visited) [n] []).2,
              List.mem_cons_self _ _, by rw [mkCluster_members]; exact hxc⟩
          · rcases List.mem_cons.mp hx with rfl | hx'
            · exact absurd ((d1 x).mpr Relation.ReflTransGen.refl) hxc
            · obtain ⟨c, hc, hcx⟩ := j3 x hx' (fun hmem => by
                rcases (d3 x).mp hmem with h | h
                · exact hxv h
                · exact hxc h) hs
              exact ⟨c, List.mem_cons_of_mem _ hc, hcx⟩

theorem mem_adjacency (edges : List (String × String)) (x y : String) :
    y ∈ adjacency edges x ↔
      ∃ e ∈ edges, (e.1 = x ∧ e.2 = y) ∨ (e.2 = x ∧ e.1 = y) := by
  simp only [adjacency, List.mem_flatMap]
  constructor
  · rintro ⟨e, he, hy⟩
    rcases List.mem_append.mp hy with hh | hh
    · by_cases h1 : e.1 = x
      · rw [if_pos h1] at hh
        exact ⟨e, he, Or.inl ⟨h1, (List.mem_singleton.mp hh).symm⟩⟩
      · rw [if_neg h1] at hh
        simp at hh
    · by_cases h2 : e.2 = x
      · rw [if_pos h2] at hh
        exact ⟨e, he, Or.inr ⟨h2, (List.mem_singleton.mp hh).symm⟩⟩
      · rw [if_neg h2] at hh
        simp at hh
  · rintro ⟨e, he, ⟨h1, h2⟩ | ⟨h1, h2⟩⟩
    · exact ⟨e, he, List.mem_append.mpr
        (Or.inl (by rw [if_pos h1]; exact List.mem_singleton.mpr h2.symm))⟩
    · exact ⟨e, he, List.mem_append.mpr
        (Or.inr (by rw [if_pos h1]; exact List.mem_singleton.mpr h2.symm))⟩

theorem adjacency_symm (edges : List (String × String)) (x y : String)
    (h : y ∈ adjacency edges x) : x ∈ adjacency edges y := by
  obtain ⟨e, he, hd⟩ := (mem_adjacency edges x y).mp h
  apply (mem_adjacency edges y x).mpr
  rcases hd with ⟨h1, h2⟩ | ⟨h1, h2⟩
  · exact ⟨e, he, Or.inr ⟨h2, h1⟩⟩
  · exact ⟨e, he, Or.inl ⟨h2, h1⟩⟩

theorem posEdges_mem_nodes (logs : List LogEntry) (s : AnalysisSettings)
    (e : String × String) (he : e ∈ posEdges logs s) :
    e.1 ∈ nodesOf logs ∧ e.2 ∈ nodesOf logs := by
  unfold posEdges at he
  obtain ⟨l, hl, hcl⟩ := List.mem_filterMap.mp he
  split at hcl
  · obtain rfl := Option.some.inj hcl
    constructor
    · simp only [nodesOf, mem_dedupKeepFirst]
      exact List.mem_flatMap.mpr ⟨l, hl, by simp⟩
    · simp only [nodesOf, mem_dedupKeepFirst]
      exact List.mem_flatMap.mpr ⟨l, hl, by simp⟩
  · exact absurd hcl (by simp)

theorem adjacency_mem_nodes (logs : List LogEntry) (s : AnalysisSettings) (x y : String)
    (h : y ∈ adjacency (posEdges logs s) x) : y ∈ nodesOf logs := by
  obtain ⟨e, he, hd⟩ := (mem_adjacency _ x y).mp h
  obtain ⟨h1, h2⟩ := posEdges_mem_nodes logs s e he
  rcases hd with ⟨-, rfl⟩ | ⟨-, rfl⟩
  · exact h2
  · exact h1

/-- C7: the clusters returned by `analyzeLogs` are exactly the
connected components of size ≥ `minClusterSize` of the undirected
positive-action adjacency: each cluster is a duplicate-free full
component, clusters are pairwise disjoint, every node of a
sufficiently large component lands in a cluster (so the component
appears exactly once), and members of clusters only come from
components of sufficient size.  `componentOf` — the same DFS run
fresh — is characterized against reachability in the first
conjunct. -/
theorem analyzeLogs_clusters_partition (C : Collaborators) (logs : List LogEntry)
    (s : AnalysisSettings) (res : AnalysisResult) (h : analyzeLogs C logs s = .ok res) :
    (∀ x ∈ nodesOf logs, ∀ y,
        (y ∈ componentOf (adjacency (posEdges logs s)) ((nodesOf logs).length + 1) x ↔
          Relation.ReflTransGen (adjStep (adjacency (posEdges logs s))) x y)) ∧
    (∀ c ∈ res.clusters,
        c.members.Nodup ∧ s.minClusterSize ≤ c.members.length ∧
        (∀ x ∈ c.members, ∀ y,
          (y ∈ c.members ↔
            Relation.ReflTransGen (adjStep (adjacency (posEdges logs s))) x y))) ∧
    res.clusters.Pairwise (fun c c' => ∀ x ∈ c.members, x ∉ c'.members) ∧
    (∀ x ∈ nodesOf logs,
        s.minClusterSize ≤
          (componentOf (adjacency (posEdges logs s)) ((nodesOf logs).length + 1) x).length →
        ∃ c ∈ res.clusters, x ∈ c.members) ∧
    (∀ c ∈ res.clusters, ∀ x ∈ c.members,
        s.minClusterSize ≤
          (componentOf (adjacency (posEdges logs s)) ((nodesOf logs).length + 1) x).length) := by
  have hall : (nodesOf logs).Nodup := nodup_dedupKeepFirst _
  have hg : ∀ x, ∀ y ∈ adjacency (posEdges logs s) x, y ∈ nodesOf logs :=
    fun x y hy => adjacency_mem_nodes logs s x y hy
  have hsym : ∀ x y, y ∈ adjacency (posEdges logs s) x → x ∈ adjacency (posEdges logs s) y :=
    fun x y hy => adjacency_symm _ x y hy
  have hcomp : ∀ x ∈ nodesOf logs, ∀ y,
      (y ∈ componentOf (adjacency (posEdges logs s)) ((nodesOf logs).length + 1) x ↔
        Relation.ReflTransGen (adjStep (adjacency (posEdges logs s))) x y) :=
    fun x hx => (componentOf_spec _ _ hall hg hsym x hx).1
  simp only [analyzeLogs] at h
  split at h
  · next hemp =>
    obtain rfl := Except.ok.inj h
    have hlogs : logs = [] := List.isEmpty_iff.mp hemp
    refine ⟨hcomp, ?_, ?_, ?_, ?_⟩
    · intro c hc; simp at hc
    · simp
    · intro x hx
      subst hlogs
      simp [nodesOf, dedupKeepFirst, dedupFirstAux] at hx
    · intro c hc; simp at hc
  · split at h
    · exact absurd h (by simp)
    · obtain rfl := Except.ok.inj h
      obtain ⟨j1, j2, j3⟩ := clustersGo_spec (adjacency (posEdges logs s)) (nodesOf logs)
        hall hg hsym s.minClusterSize (nodesOf logs) [] 0
        (fun x hx => by simp at hx) (fun x hx => hx)
      simp only
      refine ⟨hcomp, ?_, j2, ?_, ?_⟩
      · intro c hc
        obtain ⟨k1, k2, _, _, k5, _⟩ := j1 c hc
        exact ⟨k1, k2, k5⟩
      · intro x hx hs
        exact j3 x hx (by simp) hs
      · intro c hc x hx
        obtain ⟨k1, k2, _, _, k5, k6⟩ := j1 c hc
        obtain ⟨c1, c2⟩ := componentOf_spec _ _ hall hg hsym x (k6 x hx)
        have hlen : (componentOf (adjacency (posEdges logs s))
            ((nodesOf logs).length + 1) x).length = c.members.length := by
          apply length_eq_of_nodup_set_eq _ _ c2 k1
          intro a
          rw [c1 a, k5 x hx a]
        omega

/-- C7 witness at the concrete duplicate-pair run (component `{a, b}`
with `minClusterSize = 2`). -/
theorem analyzeLogs_clusters_partition_witness :
    (∀ x ∈ nodesOf c3logs, ∀ y,
        (y ∈ componentOf (adjacency (posEdges c3logs stdSettings))
            ((nodesOf c3logs).length + 1) x ↔
          Relation.ReflTransGen (adjStep (adjacency (posEdges c3logs stdSettings))) x y)) ∧
    (∀ c ∈ c4res.clusters,
        c.members.Nodup ∧ stdSettings.minClusterSize ≤ c.members.length ∧
        (∀ x ∈ c.members, ∀ y,
          (y ∈ c.members ↔
            Relation.ReflTransGen (adjStep (adjacency (posEdges c3logs stdSettings))) x y))) ∧
    c4res.clusters.Pairwise (fun c c' => ∀ x ∈ c.members, x ∉ c'.members) ∧
    (∀ x ∈ nodesOf c3logs,
        stdSettings.minClusterSize ≤
          (componentOf (adjacency (posEdges c3logs stdSettings))
            ((nodesOf c3logs).length + 1) x).length →
        ∃ c ∈ c4res.clusters, x ∈ c.members) ∧
    (∀ c ∈ c4res.clusters, ∀ x ∈ c.members,
        stdSettings.minClusterSize ≤
          (componentOf (adjacency (posEdges c3logs stdSettings))
            ((nodesOf c3logs).length + 1) x).length) :=
  analyzeLogs_clusters_partition trivC c3logs stdSettings c4res rfl

/-! ## C2: density and conductance bounds -/

/-- Two directed edges describe the same unordered pair. -/
def samePair (e e' : String × String) : Prop :=
  (e'.1 = e.1 ∧ e'.2 = e.2) ∨ (e'.1 = e.2 ∧ e'.2 = e.1)

/-- Conductance is always in [0,1] and density is always nonnegative,
for any adjacency (multigraph included). -/
theorem mkCluster_bounds (g : String → List String) (cid : Nat) (comp : List String) :
    0 ≤ (mkCluster g cid comp).conductance ∧ (mkCluster g cid comp).conductance ≤ 1 ∧
      0 ≤ (mkCluster g cid comp).density := by
  simp only [mkCluster]
  refine ⟨?_, ?_, ?_⟩
  · split_ifs with hp
    · positivity
    · exact le_refl 0
  · split_ifs with hp
    · rw [div_le_one hp]
      have h0 : (0 : ℚ) ≤ ((comp.map (fun n =>
          ((g n).filter (fun m => m ∈ comp)).length)).sum : ℚ) / 2 := by positivity
      linarith
    · exact zero_le_one
  · split_ifs with hp
    · positivity
    · exact le_refl 0

/-- Under a simple adjacency (no duplicate entries, no self-entries)
with duplicate-free members, density cannot exceed 1. -/
theorem mkCluster_density_le_one (g : String → List String) (cid : Nat)
    (comp : List String) (hcomp : comp.Nodup) (hadj : ∀ n, (g n).Nodup)
    (hself : ∀ n, n ∉ g n) : (mkCluster g cid comp).density ≤ 1 := by
  simp only [mkCluster]
  split_ifs with hp
  · rw [div_le_one hp]
    have hL2 : 2 ≤ comp.length := by
      by_contra hh
      push_neg at hh
      have : comp.length = 0 ∨ comp.length = 1 := by omega
      rcases this with h0 | h1
      · rw [h0] at hp; norm_num at hp
      · rw [h1] at hp; norm_num at hp
    have hterm : ∀ k ∈ comp.map (fun n => ((g n).filter (fun m => m ∈ comp)).length),
        k ≤ comp.length - 1 := by
      intro k hk
      obtain ⟨n, hn, rfl⟩ := List.mem_map.mp hk
      have hsub : ((g n).filter (fun m => m ∈ comp)).toFinset ⊆
          comp.toFinset.erase n := by
        intro a ha
        rw [List.mem_toFinset, List.mem_filter] at ha
        obtain ⟨hag, hac⟩ := ha
        apply Finset.mem_erase.mpr
        refine ⟨?_, List.mem_toFinset.mpr (of_decide_eq_true hac)⟩
        intro heq
        exact hself n (heq ▸ hag)
      have h1 : ((g n).filter (fun m => m ∈ comp)).toFinset.card =
          ((g n).filter (fun m => m ∈ comp)).length :=
        List.toFinset_card_of_nodup ((hadj n).filter _)
      have h2 : comp.toFinset.card = comp.length := List.toFinset_card_of_nodup hcomp
      have h3 := Finset.card_le_card hsub
      have h4 : (comp.toFinset.erase n).card = comp.toFinset.card - 1 :=
        Finset.card_erase_of_mem (List.mem_toFinset.mpr hn)
      omega
    have hi2 : (comp.map (fun n => ((g n).filter (fun m => m ∈ comp)).length)).sum ≤
        comp.length * (comp.length - 1) := by
      have := List.sum_le_card_nsmul
        (comp.map (fun n => ((g n).filter (fun m => m ∈ comp)).length))
        (comp.length - 1) hterm
      simpa [List.length_map, smul_eq_mul] using this
    have hcast : ((comp.length * (comp.length - 1) : Nat) : ℚ) =
        (comp.length : ℚ) * ((comp.length : ℚ) - 1) := by
      push_cast [Nat.cast_sub (by omega : 1 ≤ comp.length)]
      ring
    calc ((comp.map (fun n => ((g n).filter (fun m => m ∈ comp)).length)).sum : ℚ) / 2
        ≤ ((comp.length * (comp.length - 1) : Nat) : ℚ) / 2 := by
          gcongr
      _ = (comp.length : ℚ) * ((comp.length : ℚ) - 1) / 2 := by rw [hcast]
  · exact zero_le_one

theorem simple_filter_bound (edges : List (String × String))
    (hpw : edges.Pairwise (fun e e' => ¬ samePair e e')) (u v : String) :
    (edges.filter (fun e => e.1 = v ∧ e.2 = u)).length +
      (edges.filter (fun e => e.1 = u ∧ e.2 = v)).length ≤ 1 ∨ u = v := by
  by_cases huv : u = v
  · exact Or.inr huv
  refine Or.inl ?_
  induction edges with
  | nil => simp
  | cons e es ih =>
    obtain ⟨he, hes⟩ := List.pairwise_cons.mp hpw
    rw [List.filter_cons, List.filter_cons]
    by_cases hA : e.1 = v ∧ e.2 = u
    · have hz1 : (es.filter (fun e' => e'.1 = v ∧ e'.2 = u)).length = 0 := by
        rw [List.length_eq_zero, List.filter_eq_nil_iff]
        intro e' he'
        simp only [decide_eq_true_eq]
        rintro ⟨h1, h2⟩
        exact he e' he' (Or.inl ⟨h1.trans hA.1.symm, h2.trans hA.2.symm⟩)
      have hz2 : (es.filter (fun e' => e'.1 = u ∧ e'.2 = v)).length = 0 := by
        rw [List.length_eq_zero, List.filter_eq_nil_iff]
        intro e' he'
        simp only [decide_eq_true_eq]
        rintro ⟨h1, h2⟩
        exact he e' he' (Or.inr ⟨h1.trans hA.2.symm, h2.trans hA.1.symm⟩)
      rw [if_pos (by simp [hA.1, hA.2] : decide (e.1 = v ∧ e.2 = u) = true),
        if_neg (by simp [hA.1, hA.2, huv, Ne.symm huv] : ¬ decide (e.1 = u ∧ e.2 = v) = true)]
      simp only [List.length_cons]
      omega
    · by_cases hB : e.1 = u ∧ e.2 = v
      · have hz1 : (es.filter (fun e' => e'.1 = v ∧ e'.2 = u)).length = 0 := by
          rw [List.length_eq_zero, List.filter_eq_nil_iff]
          intro e' he'
          simp only [decide_eq_true_eq]
          rintro ⟨h1, h2⟩
          exact he e' he' (Or.inr ⟨h1.trans hB.2.symm, h2.trans hB.1.symm⟩)
        have hz2 : (es.filter (fun e' => e'.1 = u ∧ e'.2 = v)).length = 0 := by
          rw [List.length_eq_zero, List.filter_eq_nil_iff]
          intro e' he'
          simp only [decide_eq_true_eq]
          rintro ⟨h1, h2⟩
          exact he e' he' (Or.inl ⟨h1.trans hB.1.symm, h2.trans hB.2.symm⟩)
        rw [if_neg (by simp [hB.1, hB.2, huv] : ¬ decide (e.1 = v ∧ e.2 = u) = true),
          if_pos (by simp [hB.1, hB.2] : decide (e.1 = u ∧ e.2 = v) = true)]
        simp only [List.length_cons]
        omega
      · rw [if_neg (by simpa using hA), if_neg (by simpa using hB)]
        exact ih hes

/-- With pairwise-distinct unordered pairs and no self-loops, each
adjacency list is duplicate-free and self-free. -/
theorem adjacency_simple (edges : List (String × String))
    (hpw : edges.Pairwise (fun e e' => ¬ samePair e e'))
    (hself : ∀ e ∈ edges, e.1 ≠ e.2) (n : String) :
    (adjacency edges n).Nodup ∧ n ∉ adjacency edges n := by
  have hzero : ∀ m, m = n →
      (edges.filter (fun e => e.1 = n ∧ e.2 = m)).length = 0 := by
    intro m hm
    subst hm
    rw [List.length_eq_zero, List.filter_eq_nil_iff]
    intro e he
    simp only [decide_eq_true_eq]
    rintro ⟨h1, h2⟩
    exact hself e he (h1.trans h2.symm)
  have hcount : ∀ a, (adjacency edges n).count a ≤ 1 := by
    intro a
    rw [adjacency_count_eq]
    by_cases han : a = n
    · subst han
      rw [hzero a rfl]
      omega
    · rcases simple_filter_bound edges hpw a n with hb | hb
      · exact hb
      · exact absurd hb han
  constructor
  · exact List.nodup_iff_count_le_one.mpr hcount
  · have h0 : (adjacency edges n).count n = 0 := by
      rw [adjacency_count_eq, hzero n rfl]
    exact List.count_eq_zero.mp h0

/-- C2 (amended): every cluster has conductance in [0,1] and density
≥ 0 for any input; density ≤ 1 additionally holds whenever the
positive events form a simple graph (no repeated actor/target pair in
either direction and no self-loop).  With duplicate positive events
density can exceed 1; see the counterexample. -/
theorem analyzeLogs_cluster_metric_bounds (C : Collaborators) (logs : List LogEntry)
    (s : AnalysisSettings) (res : AnalysisResult) (h : analyzeLogs C logs s = .ok res) :
    (∀ c ∈ res.clusters, 0 ≤ c.conductance ∧ c.conductance ≤ 1 ∧ 0 ≤ c.density) ∧
    (((posEdges logs s).Pairwise (fun e e' => ¬ samePair e e') ∧
        (∀ e ∈ posEdges logs s, e.1 ≠ e.2)) →
      ∀ c ∈ res.clusters, c.density ≤ 1) := by
  have hall : (nodesOf logs).Nodup := nodup_dedupKeepFirst _
  have hg : ∀ x, ∀ y ∈ adjacency (posEdges logs s) x, y ∈ nodesOf logs :=
    fun x y hy => adjacency_mem_nodes logs s x y hy
  have hsym : ∀ x y, y ∈ adjacency (posEdges logs s) x →
      x ∈ adjacency (posEdges logs s) y :=
    fun x y hy => adjacency_symm _ x y hy
  simp only [analyzeLogs] at h
  split at h
  · obtain rfl := Except.ok.inj h
    exact ⟨fun c hc => by simp at hc, fun _ c hc => by simp at hc⟩
  · split at h
    · exact absurd h (by simp)
    · obtain rfl := Except.ok.inj h
      obtain ⟨j1, _, _⟩ := clustersGo_spec (adjacency (posEdges logs s)) (nodesOf logs)
        hall hg hsym s.minClusterSize (nodesOf logs) [] 0
        (fun x hx => by simp at hx) (fun x hx => hx)
      simp only
      constructor
      · intro c hc
        obtain ⟨_, _, _, ⟨cid', hceq⟩, _, _⟩ := j1 c hc
        rw [hceq]
        exact mkCluster_bounds _ _ _
      · rintro ⟨hpw, hsf⟩ c hc
        obtain ⟨k1, _, _, ⟨cid', hceq⟩, _, _⟩ := j1 c hc
        rw [hceq]
        exact mkCluster_density_le_one _ _ _ k1
          (fun m => (adjacency_simple _ hpw hsf m).1)
          (fun m => (adjacency_simple _ hpw hsf m).2)

/-- C2 counterexample: with the duplicate-pair log the single cluster
`{a, b}` has density `(4/2)/1 = 2 > 1`. -/
theorem cluster_density_gt_one_counterexample :
    analyzeLogs trivC c3logs stdSettings = .ok c4res ∧
    ∃ c ∈ c4res.clusters, ¬ c.density ≤ 1 := by
  refine ⟨rfl, c4res.clusters.headI, ?_, ?_⟩
  · have h : c4res.clusters = c4res.clusters.headI :: c4res.clusters.tail := rfl
    rw [h]
    exact List.mem_cons_self _ _
  · have h1 : c4res.clusters.headI =
        mkCluster (adjacency (posEdges c3logs stdSettings)) 0 ["a", "b"] := rfl
    rw [h1]
    simp only [mkCluster]
    have hi : ((["a", "b"]).map (fun n =>
        (((adjacency (posEdges c3logs stdSettings)) n).filter
          (fun m => m ∈ ["a", "b"])).length)).sum = 4 := by decide
    rw [hi]
    simp only [List.length_cons, List.length_nil]
    rw [if_pos (by norm_num)]
    norm_num

/-- C2 witness at the concrete three-follower run (a simple graph, so
the density bound applies non-vacuously). -/
theorem analyzeLogs_cluster_metric_bounds_witness :
    (∀ c ∈ c6res.clusters, 0 ≤ c.conductance ∧ c.conductance ≤ 1 ∧ 0 ≤ c.density) ∧
    (((posEdges c6logs stdSettings).Pairwise (fun e e' => ¬ samePair e e') ∧
        (∀ e ∈ posEdges c6logs stdSettings, e.1 ≠ e.2)) →
      ∀ c ∈ c6res.clusters, c.density ≤ 1) :=
  analyzeLogs_cluster_metric_bounds trivC c6logs stdSettings c6res rfl
